import Mathlib

/-!
# mixer-tools `config` package: configuration and state lifecycle

A shallow embedding of `src/config/mixconfig.go` and `src/config/mixstate.go`.

* Go strings are modelled by `String`; the scanning algorithms work on the
  underlying `List Char`.
* A Go `error` result is an `Option String` (`none` is `nil`); a method with a
  pointer receiver returns the receiver after the call next to its error.
* The struct tags read through `reflect` are kept as data (`StructField`).
* Library functions the package calls (`filepath.Join`, `os.ExpandEnv`, the two
  regular expressions) are modelled from their documented behaviour; the TOML
  encoder/decoder and the functions of the package that live in other files
  (`ParseVersion`, `convert`) are parameters.
-/

set_option autoImplicit false

namespace config

/-! ## Data model (`mixconfig.go` lines 30-71, `mixstate.go` lines 28-43) -/

/-- The `[Builder]` section. -/
structure builderConf where
  Cert : String
  ServerStateDir : String
  VersionPath : String
  DNFConf : String
  deriving DecidableEq, Repr

/-- The `[Swupd]` section. -/
structure swupdConf where
  Bundle : String
  ContentURL : String
  VersionURL : String
  deriving DecidableEq, Repr

/-- The `[Server]` section. -/
structure serverConf where
  DebugInfoBanned : String
  DebugInfoLib : String
  DebugInfoSrc : String
  deriving DecidableEq, Repr

/-- The `[Mixer]` section. -/
structure mixerConf where
  LocalBundleDir : String
  LocalRepoDir : String
  LocalRPMDir : String
  DockerImgPath : String
  deriving DecidableEq, Repr

/-- The config parameters found in the builder config file, with the three
unexported (hidden) properties. -/
structure MixConfig where
  Builder : builderConf
  Swupd : swupdConf
  Server : serverConf
  Mixer : mixerConf
  filename : String
  version : String
  hasFormatField : Bool
  deriving DecidableEq, Repr

/-- A struct field as `reflect` shows it: its Go name and its tag, a list of
`key:"value"` pairs. -/
structure StructField where
  Name : String
  Tag : List (String × String)
  deriving DecidableEq, Repr

/-- The method `reflect.StructTag.Lookup`: the value of a key, when present. -/
def StructField.Lookup (f : StructField) (key : String) : Option String :=
  (f.Tag.find? (fun kv => kv.1 == key)).map Prod.snd

/-- One string field of one exported section of `MixConfig`: what
`sectionT.Field(j)` (name and tag) and `sectionV.Field(j)` (`String`,
`SetString`) give access to. -/
structure FieldRef where
  info : StructField
  get : MixConfig → String
  set : MixConfig → String → MixConfig

/-- The fields the two nested `reflect` loops of `expandEnv` and `validate`
visit, in the order they visit them: the exported sections `Builder`, `Swupd`,
`Server`, `Mixer` in declaration order, each with its fields in declaration
order and the tags written in the source. The unexported `filename`, `version`
and `hasFormatField` are skipped by the `CanSet` test. -/
def MixConfig.fieldRefs : List FieldRef :=
  [ ⟨⟨"Cert", [("required", "true"), ("mount", "true"), ("toml", "CERT")]⟩,
      fun c => c.Builder.Cert,
      fun c v => { c with Builder := { c.Builder with Cert := v } }⟩,
    ⟨⟨"ServerStateDir", [("required", "true"), ("mount", "true"), ("toml", "SERVER_STATE_DIR")]⟩,
      fun c => c.Builder.ServerStateDir,
      fun c v => { c with Builder := { c.Builder with ServerStateDir := v } }⟩,
    ⟨⟨"VersionPath", [("required", "true"), ("mount", "true"), ("toml", "VERSIONS_PATH")]⟩,
      fun c => c.Builder.VersionPath,
      fun c v => { c with Builder := { c.Builder with VersionPath := v } }⟩,
    ⟨⟨"DNFConf", [("required", "true"), ("mount", "true"), ("toml", "YUM_CONF")]⟩,
      fun c => c.Builder.DNFConf,
      fun c v => { c with Builder := { c.Builder with DNFConf := v } }⟩,
    ⟨⟨"Bundle", [("required", "false"), ("toml", "BUNDLE")]⟩,
      fun c => c.Swupd.Bundle,
      fun c v => { c with Swupd := { c.Swupd with Bundle := v } }⟩,
    ⟨⟨"ContentURL", [("required", "false"), ("toml", "CONTENTURL")]⟩,
      fun c => c.Swupd.ContentURL,
      fun c v => { c with Swupd := { c.Swupd with ContentURL := v } }⟩,
    ⟨⟨"VersionURL", [("required", "false"), ("toml", "VERSIONURL")]⟩,
      fun c => c.Swupd.VersionURL,
      fun c v => { c with Swupd := { c.Swupd with VersionURL := v } }⟩,
    ⟨⟨"DebugInfoBanned", [("required", "false"), ("toml", "DEBUG_INFO_BANNED")]⟩,
      fun c => c.Server.DebugInfoBanned,
      fun c v => { c with Server := { c.Server with DebugInfoBanned := v } }⟩,
    ⟨⟨"DebugInfoLib", [("required", "false"), ("toml", "DEBUG_INFO_LIB")]⟩,
      fun c => c.Server.DebugInfoLib,
      fun c v => { c with Server := { c.Server with DebugInfoLib := v } }⟩,
    ⟨⟨"DebugInfoSrc", [("required", "false"), ("toml", "DEBUG_INFO_SRC")]⟩,
      fun c => c.Server.DebugInfoSrc,
      fun c v => { c with Server := { c.Server with DebugInfoSrc := v } }⟩,
    ⟨⟨"LocalBundleDir", [("required", "false"), ("mount", "true"), ("toml", "LOCAL_BUNDLE_DIR")]⟩,
      fun c => c.Mixer.LocalBundleDir,
      fun c v => { c with Mixer := { c.Mixer with LocalBundleDir := v } }⟩,
    ⟨⟨"LocalRepoDir", [("required", "false"), ("mount", "true"), ("toml", "LOCAL_REPO_DIR")]⟩,
      fun c => c.Mixer.LocalRepoDir,
      fun c v => { c with Mixer := { c.Mixer with LocalRepoDir := v } }⟩,
    ⟨⟨"LocalRPMDir", [("required", "false"), ("mount", "true"), ("toml", "LOCAL_RPM_DIR")]⟩,
      fun c => c.Mixer.LocalRPMDir,
      fun c v => { c with Mixer := { c.Mixer with LocalRPMDir := v } }⟩,
    ⟨⟨"DockerImgPath", [("required", "false"), ("toml", "DOCKER_IMAGE_PATH")]⟩,
      fun c => c.Mixer.DockerImgPath,
      fun c v => { c with Mixer := { c.Mixer with DockerImgPath := v } }⟩ ]

/-! ## `path/filepath` on Unix: `Clean` and `Join` -/

/-- The function `strings.Split(p, "/")` on the characters of a path. -/
def splitSlash : List Char → List (List Char)
  | [] => [[]]
  | c :: cs =>
    if c = '/' then [] :: splitSlash cs
    else
      match splitSlash cs with
      | [] => [[c]]
      | h :: t => (c :: h) :: t

/-- One path element processed by the loop of `filepath.Clean`. The stack holds
the elements written so far, the last one first. An empty element and `.` are
dropped; `..` removes the last real element, is dropped at the root, and is
kept at the start of a relative path; any other element is appended. -/
def cleanStep (rooted : Bool) (stack : List (List Char)) (comp : List Char) :
    List (List Char) :=
  if comp = [] ∨ comp = ['.'] then stack
  else if comp = ['.', '.'] then
    match stack with
    | [] => if rooted then [] else [['.', '.']]
    | top :: rest =>
      if top = ['.', '.'] then (if rooted then stack else ['.', '.'] :: stack)
      else rest
  else comp :: stack

/-- Whether a path starts with the separator. -/
def isRooted : List Char → Bool
  | c :: _ => c == '/'
  | [] => false

/-- The elements of the cleaned path, first one first. -/
def cleanComps (p : List Char) : List (List Char) :=
  ((splitSlash p).foldl (cleanStep (isRooted p)) []).reverse

/-- The elements joined by single separators. -/
def joinSlash : List (List Char) → List Char
  | [] => []
  | [c] => c
  | c :: cs => c ++ '/' :: joinSlash cs

/-- The function `filepath.Clean`: the shortest path name equivalent to `p` by
purely lexical processing; the empty result of a relative path is `.`. -/
def Clean (p : List Char) : List Char :=
  if isRooted p then '/' :: joinSlash (cleanComps p)
  else if cleanComps p = [] then ['.'] else joinSlash (cleanComps p)

/-- The function `strings.Join(elems, "/")`. -/
def joinElems : List String → List Char
  | [] => []
  | [e] => e.data
  | e :: es => e.data ++ '/' :: joinElems es

/-- The function `filepath.Join`: leading empty elements are ignored, the rest
is joined by separators and cleaned; with no non-empty element the result is
the empty string. -/
def filepathJoin : List String → String
  | [] => ""
  | e :: es => if e ≠ "" then String.mk (Clean (joinElems (e :: es))) else filepathJoin es

/-! ## `MixConfig` defaults -/

/-- The method `LoadDefaultsForPath`: sane values for the config properties
with `path` as base directory. The package variable `CurrentConfigVersion` is
declared in a file that is not among the sources at hand, so its value is an
argument. -/
def MixConfig.LoadDefaultsForPath (CurrentConfigVersion : String) (_config : MixConfig)
    (path : String) : MixConfig :=
  { Builder :=
      { Cert := filepathJoin [path, "Swupd_Root.pem"]
        ServerStateDir := filepathJoin [path, "update"]
        VersionPath := path
        DNFConf := filepathJoin [path, ".yum-mix.conf"] }
    Swupd :=
      { Bundle := "os-core-update"
        ContentURL := "<URL where the content will be hosted>"
        VersionURL := "<URL where the version of the mix will be hosted>" }
    Server :=
      { DebugInfoBanned := "true"
        DebugInfoLib := "/usr/lib/debug"
        DebugInfoSrc := "/usr/src/debug" }
    Mixer :=
      { LocalBundleDir := filepathJoin [path, "local-bundles"]
        DockerImgPath := "clearlinux/mixer"
        LocalRPMDir := filepathJoin [path, "local-rpms"]
        LocalRepoDir := filepathJoin [path, "local-yum"] }
    version := CurrentConfigVersion
    filename := filepathJoin [path, "builder.conf"]
    hasFormatField := false }

/-- The zero value of `MixConfig`. -/
def MixConfig.zero : MixConfig :=
  { Builder := ⟨"", "", "", ""⟩, Swupd := ⟨"", "", ""⟩, Server := ⟨"", "", ""⟩,
    Mixer := ⟨"", "", "", ""⟩, filename := "", version := "", hasFormatField := false }

/-- A relative path made of real elements only: no empty element, no `.`,
no `..`. -/
def plainRel (rel : List Char) : Bool :=
  (splitSlash rel).all (fun e => e != [] && e != ['.'] && e != ['.', '.'])

/-- The path `f` lies under the directory `d`: it is `d`, a separator and a
relative path of real elements, where the directory `.` stands for no prefix
and the root `/` brings its own separator. -/
def underDir (d f : List Char) : Bool :=
  (d == ['.'] && plainRel f) ||
    (d == ['/'] && f.head? == some '/' && plainRel f.tail) ||
    ((d ++ ['/']).isPrefixOf f && plainRel (f.drop (d.length + 1)))

/-- A path `f` is the path `P` itself or a path under `P`, the directory `P`
taken in its cleaned form. -/
def underPath (P f : String) : Prop :=
  f = P ∨ underDir (Clean P.data) f.data = true

instance (P f : String) : Decidable (underPath P f) := by
  unfold underPath; exact inferInstance

/-- A plain file name: not empty, without separator, neither `.` nor `..`. -/
def plainName (n : List Char) : Bool :=
  n != [] && !n.contains '/' && n != ['.'] && n != ['.', '.']

/-! ## Validation (`mixconfig.go` lines 213-245) -/

/-- The inner test of `validate` on one field: `some name` when the field is
tagged `required:"true"` and holds the empty string, with `name` the TOML key,
or the Go field name when there is no TOML tag or an empty one. -/
def missingName (f : FieldRef) (c : MixConfig) : Option String :=
  if f.info.Lookup "required" = some "true" ∧ f.get c = "" then
    match f.info.Lookup "toml" with
    | some name => if name = "" then some f.info.Name else some name
    | none => some f.info.Name
  else none

/-- The loops of `validate`: the name reported for the first field that fails
the test. -/
def firstMissing (c : MixConfig) : List FieldRef → Option String
  | [] => none
  | f :: fs =>
    match missingName f c with
    | some name => some name
    | none => firstMissing c fs

/-- The method `validate`: the error, and the lines written to the log. -/
def MixConfig.validate (c : MixConfig) : Option String × List String :=
  match firstMissing c MixConfig.fieldRefs with
  | some name => (some ("Missing required field in config file: " ++ name), [])
  | none =>
    (none,
      if c.hasFormatField then ["Warning: FORMAT value was transferred to mixer.state file"]
      else [])

/-! ## Process environment and `os.ExpandEnv` -/

/-- The process environment: `NAME=value` entries, the first entry of a name
is the one in force. -/
abbrev Env := List (String × String)

/-- The function `os.LookupEnv`. -/
def LookupEnv (env : Env) (key : String) : Option String :=
  (env.find? (fun kv => kv.1 == key)).map Prod.snd

/-- The function `os.Getenv`: the empty string for an undefined variable. -/
def Getenv (env : Env) (key : String) : String :=
  (LookupEnv env key).getD ""

/-- The function `isShellSpecialVar` of `os/env.go`. -/
def isShellSpecialVar (c : Char) : Bool :=
  c ∈ ['*', '#', '$', '@', '!', '?', '-', '0', '1', '2', '3', '4', '5', '6', '7', '8', '9']

/-- The function `isAlphaNum` of `os/env.go`: ASCII letter, digit or underscore. -/
def isAlphaNum (c : Char) : Bool :=
  c == '_' || ('0' ≤ c && c ≤ '9') || ('a' ≤ c && c ≤ 'z') || ('A' ≤ c && c ≤ 'Z')

/-- The function `getShellName` of `os/env.go`, on the text after a `$`: the
name that begins it and the number of characters consumed. `${c}` with a
special `c` is that one-character name; `${name}` is the text up to the first
closing brace; `${}` is bad syntax consuming two characters and an unclosed
`${` bad syntax consuming one; a special character is a name by itself;
otherwise the name is the leading run of `isAlphaNum` characters. -/
def getShellName : List Char → List Char × Nat
  | [] => ([], 0)
  | c :: rest =>
    if c = '{' then
      if (match rest with
          | c1 :: c2 :: _ => isShellSpecialVar c1 && c2 == '}'
          | _ => false) then (rest.take 1, 3)
      else if '}' ∈ rest then
        if rest.takeWhile (fun x => x != '}') = [] then ([], 2)
        else (rest.takeWhile (fun x => x != '}'), (rest.takeWhile (fun x => x != '}')).length + 2)
      else ([], 1)
    else if isShellSpecialVar c then ([c], 1)
    else ((c :: rest).takeWhile isAlphaNum, ((c :: rest).takeWhile isAlphaNum).length)

/-- The loop of `os.Expand` (Go 1.11 and later): a `$` that is not the last
character is followed by a shell name; a name is replaced by its mapping, bad
syntax is eaten, and a `$` followed by no name stays. The first argument
bounds the number of iterations; the length of the text is enough. -/
def expandAux (mapping : String → String) : Nat → List Char → List Char
  | 0, s => s
  | _ + 1, [] => []
  | fuel + 1, c :: rest =>
    if c = '$' ∧ rest ≠ [] then
      (if (getShellName rest).1 = [] then
          (if (getShellName rest).2 > 0 then [] else ['$'])
        else (mapping (String.mk (getShellName rest).1)).data)
        ++ expandAux mapping fuel (rest.drop (getShellName rest).2)
    else c :: expandAux mapping fuel rest

/-- The function `os.Expand`. -/
def Expand (s : String) (mapping : String → String) : String :=
  String.mk (expandAux mapping s.length s.data)

/-- The function `os.ExpandEnv`: `$var` and `${var}` replaced according to
the environment, undefined variables by the empty string. -/
def ExpandEnv (env : Env) (s : String) : String :=
  Expand s (Getenv env)

/-- The names `os.Expand` hands to its mapping while it expands a text, in the
order of the calls: the loop of `expandAux` with the names kept in place of
the output. The mapping is called for a non-empty name only. -/
def expandNamesAux : Nat → List Char → List (List Char)
  | 0, _ => []
  | _ + 1, [] => []
  | fuel + 1, c :: rest =>
    if c = '$' ∧ rest ≠ [] then
      (if (getShellName rest).1 = [] then [] else [(getShellName rest).1])
        ++ expandNamesAux fuel (rest.drop (getShellName rest).2)
    else expandNamesAux fuel rest

/-- The variable names `os.ExpandEnv` looks up while it expands a value. -/
def ExpandLookups (s : String) : List String :=
  (expandNamesAux s.length s.data).map String.mk

/-! ## Environment expansion (`mixconfig.go` lines 183-211) -/

/-- The class `[[:word:]]` of Go regular expressions: `[0-9A-Za-z_]`. -/
def isWordChar (c : Char) : Bool :=
  ('0' ≤ c && c ≤ '9') || ('A' ≤ c && c ≤ 'Z') || ('a' ≤ c && c ≤ 'z') || c == '_'

/-- An optional brace `\{?` or `\}?` of the pattern: the text without the brace
`b` when it starts with it, the text itself otherwise. -/
def skipBrace (b : Char) : List Char → List Char
  | c :: r => if c = b then r else c :: r
  | [] => []

/-- A match of the pattern `\$\{?([[:word:]]+)\}?` of `expandEnv` starting at the
first character: the captured name and the text after the match. After the
`$` an opening brace is taken when one is there (taking none would leave the
brace where a word character is needed), the name is the whole run of word
characters, which must not be empty, and a closing brace right after it is
taken too. -/
def matchVarAt : List Char → Option (List Char × List Char)
  | '$' :: rest =>
    if (skipBrace '{' rest).takeWhile isWordChar = [] then none
    else
      some ((skipBrace '{' rest).takeWhile isWordChar,
        skipBrace '}' ((skipBrace '{' rest).dropWhile isWordChar))
  | _ => none

/-- The names captured by `re.FindAllStringSubmatch(val, -1)`: the successive
non-overlapping matches from left to right, the search resuming where the
previous match ended. The first argument bounds the number of steps; the
length of the text is enough. -/
def findAllAux : Nat → List Char → List (List Char)
  | 0, _ => []
  | _ + 1, [] => []
  | fuel + 1, c :: cs =>
    match matchVarAt (c :: cs) with
    | some (name, rest) => name :: findAllAux fuel rest
    | none => findAllAux fuel cs

/-- The captured names `s[1]` of all matches in a field value. -/
def FindAllNames (val : String) : List String :=
  (findAllAux val.length val.data).map String.mk

/-- The loop over the matches: the first name `os.LookupEnv` does not find. -/
def firstUndefined (env : Env) : List String → Option String
  | [] => none
  | n :: ns => if (LookupEnv env n).isNone then some n else firstUndefined env ns

/-- The fields of a list do not overlap: setting one gives it the value set
and leaves the others as they are. -/
def Indep : List FieldRef → Prop
  | [] => True
  | f :: fs =>
    (∀ c v, f.get (f.set c v) = v) ∧
      (∀ g ∈ fs, (∀ c v, g.get (f.set c v) = g.get c) ∧ (∀ c v, f.get (g.set c v) = f.get c)) ∧
      Indep fs

/-- The loops of `expandEnv` over the fields still to visit: a field with an
undefined name stops the loop with the error, the receiver being as it is at
that moment; otherwise the field is set to its expansion and the loop goes on. -/
def expandLoop (env : Env) : List FieldRef → MixConfig → MixConfig × Option String
  | [], c => (c, none)
  | f :: fs, c =>
    match firstUndefined env (FindAllNames (f.get c)) with
    | some name =>
      (c, some ("buildconf contains an undefined environment variable: " ++ name ++ "\n"))
    | none => expandLoop env fs (f.set c (ExpandEnv env (f.get c)))

/-- The method `expandEnv`: the receiver after the call and the error. -/
def MixConfig.expandEnv (config : MixConfig) (env : Env) : MixConfig × Option String :=
  expandLoop env MixConfig.fieldRefs config

/-- A piece of a field value as the specification reads it: literal text, a
reference `$NAME`, or a reference `${NAME}`. -/
inductive Seg where
  | lit (text : List Char)
  | var (name : List Char)
  | braced (name : List Char)
  deriving DecidableEq, Repr

/-- The text of a piece. -/
def Seg.render : Seg → List Char
  | .lit t => t
  | .var n => '$' :: n
  | .braced n => '$' :: '{' :: (n ++ ['}'])

/-- The text of a value given by its pieces. -/
def renderSegs (segs : List Seg) : List Char :=
  (segs.map Seg.render).flatten

/-- The names the pieces refer to, from left to right. -/
def segNames : List Seg → List String
  | [] => []
  | .lit _ :: r => segNames r
  | .var n :: r => String.mk n :: segNames r
  | .braced n :: r => String.mk n :: segNames r

/-- The value with each reference replaced by the value of its variable. -/
def substSegs (env : Env) : List Seg → List Char
  | [] => []
  | .lit t :: r => t ++ substSegs env r
  | .var n :: r => (Getenv env (String.mk n)).data ++ substSegs env r
  | .braced n :: r => (Getenv env (String.mk n)).data ++ substSegs env r

/-- The pieces are what they look like: literal text has no `$`; a name is a
non-empty run of word characters; the name of `$NAME` does not start with a
digit and the text after it does not start with a word character (which would
belong to the name). -/
def segsOK : List Seg → Bool
  | [] => true
  | .lit t :: r => !t.contains '$' && segsOK r
  | .var n :: r =>
    n != [] && n.all isWordChar && !(n.head?.any Char.isDigit) &&
      !((renderSegs r).head?.any isWordChar) && segsOK r
  | .braced n :: r => n != [] && n.all isWordChar && segsOK r

/-- The values of the fields of the exported sections, in declaration order. -/
def MixConfig.values (c : MixConfig) : List String :=
  MixConfig.fieldRefs.map (fun f => f.get c)

/-! ## Files -/

/-- A file: its bytes and whether the process may read and write it. -/
structure File where
  content : String
  readable : Bool
  writable : Bool
  deriving DecidableEq, Repr

/-- The file system: the files by path, and the paths at which no file can
be created (missing or read-only directory). -/
structure FS where
  files : List (String × File)
  uncreatable : List String
  deriving DecidableEq, Repr

/-- The errors of the `os` package that matter here. -/
inductive OSError where
  | ErrNotExist
  | ErrPermission
  deriving DecidableEq, Repr

/-- The text of an `os` error for a path. -/
def OSError.Error (e : OSError) (op path : String) : String :=
  match e with
  | .ErrNotExist => op ++ " " ++ path ++ ": no such file or directory"
  | .ErrPermission => op ++ " " ++ path ++ ": permission denied"

/-- The file at a path. -/
def FS.lookup (fs : FS) (path : String) : Option File :=
  (fs.files.find? (fun kv => kv.1 == path)).map Prod.snd

/-- The function `os.Open` (read-only): a missing file is `ErrNotExist`, an
unreadable one `ErrPermission`. -/
def FS.Open (fs : FS) (path : String) : Except OSError File :=
  match fs.lookup path with
  | none => .error .ErrNotExist
  | some f => if f.readable then .ok f else .error .ErrPermission

/-- The function `ioutil.ReadFile`. -/
def FS.ReadFile (fs : FS) (path : String) : Except OSError String :=
  match fs.Open path with
  | .ok f => .ok f.content
  | .error e => .error e

/-- The file system with the bytes of one path replaced. -/
def FS.put (fs : FS) (path : String) (f : File) : FS :=
  { fs with files := (path, f) :: fs.files.filter (fun kv => kv.1 != path) }

/-- The calls `os.OpenFile(path, O_WRONLY|O_CREATE|O_TRUNC, 0666)` and
`buffer.WriteTo`: an existing file must be writable and gets the new bytes in
place of its own; a missing file is created where that is possible. -/
def FS.WriteFile (fs : FS) (path : String) (bytes : String) : FS × Option OSError :=
  match fs.lookup path with
  | some f =>
    if f.writable then (fs.put path { f with content := bytes }, none)
    else (fs, some .ErrPermission)
  | none =>
    if path ∈ fs.uncreatable then (fs, some .ErrPermission)
    else (fs.put path ⟨bytes, true, true⟩, none)

/-! ## `MixConfig` save and load (`mixconfig.go` lines 74-82, 116-176, 247-297) -/

/-- The bytes `Save` collects in its buffer: the version header, then what the
TOML encoder appended. -/
def saveBuffer (version body : String) : String :=
  "#VERSION " ++ version ++ "\n\n" ++ body

/-- The method `MixConfig.Save`. The TOML encoder is an argument: the bytes it
appends for a document, or its error. -/
def MixConfig.Save (encode : MixConfig → Except String String) (config : MixConfig)
    (fs : FS) : FS × Option String :=
  match encode config with
  | .error e => (fs, some e)
  | .ok body =>
    match fs.WriteFile config.filename (saveBuffer config.version body) with
    | (fs1, none) => (fs1, none)
    | (fs1, some e) => (fs1, some (e.Error "open" config.filename))

/-- The method `InitConfigPath`; `cwd` is the result of `os.Getwd`. -/
def MixConfig.InitConfigPath (config : MixConfig) (cwd : Except String String)
    (fullpath : String) : MixConfig × Option String :=
  if fullpath ≠ "" then ({ config with filename := fullpath }, none)
  else
    match cwd with
    | .error e => (config, some e)
    | .ok pwd => ({ config with filename := filepathJoin [pwd, "builder.conf"] }, none)

/-- The method `LoadDefaults`. -/
def MixConfig.LoadDefaults (CurrentConfigVersion : String) (config : MixConfig)
    (cwd : Except String String) : MixConfig × Option String :=
  match cwd with
  | .error e => (config, some e)
  | .ok pwd => (MixConfig.LoadDefaultsForPath CurrentConfigVersion config pwd, none)

/-- What `ParseVersion` hands back for a document: the version it left in the
document through `SetVersion`, whether the file is current, and its error. -/
structure Parsed where
  version : String
  ok : Bool
  err : Option String
  deriving DecidableEq, Repr

/-- The parts of the package and of the TOML library that `Load` and `Convert`
call and that are not among the sources at hand. `ParseVersion` reads the file
named by the document (arguments: files, file name, version held, latest
version); `convert` rewrites a legacy file and saves it; `decode` is
`toml.DecodeFile` into the document. -/
structure Externals where
  CurrentConfigVersion : String
  ParseVersion : FS → String → String → String → Parsed
  convert : MixConfig → FS → MixConfig × FS × Option String
  decode : FS → String → MixConfig → MixConfig × Option String

/-- The calls `Load` makes, for its trace. -/
inductive Call where
  | InitConfigPath
  | ParseVersion
  | convert
  | parse
  | expandEnv
  | validate
  deriving DecidableEq, Repr

/-- What a `Load` leaves behind: the document, the files, the lines logged, the
error returned and the calls made, in order. -/
structure Loaded where
  config : MixConfig
  fs : FS
  log : List String
  err : Option String
  trace : List Call

/-- The remainder of `Load` from `config.parse()` on. -/
def MixConfig.loadTail (x : Externals) (env : Env) (config : MixConfig) (fs : FS)
    (trace : List Call) : Loaded :=
  match x.decode fs config.filename config with
  | (c1, some e) => ⟨c1, fs, [], some e, trace ++ [.parse]⟩
  | (c1, none) =>
    match c1.expandEnv env with
    | (c2, some e) => ⟨c2, fs, [], some e, trace ++ [.parse, .expandEnv]⟩
    | (c2, none) =>
      ⟨c2, fs, c2.validate.2, c2.validate.1, trace ++ [.parse, .expandEnv, .validate]⟩

/-- The method `MixConfig.Load`. -/
def MixConfig.Load (x : Externals) (env : Env) (cwd : Except String String)
    (config : MixConfig) (filename : String) (fs : FS) : Loaded :=
  match config.InitConfigPath cwd filename with
  | (c0, some e) => ⟨c0, fs, [], some e, [.InitConfigPath]⟩
  | (c0, none) =>
    let p := x.ParseVersion fs c0.filename c0.version x.CurrentConfigVersion
    let c1 := { c0 with version := p.version }
    match p.err with
    | some e => ⟨c1, fs, [], some e, [.InitConfigPath, .ParseVersion]⟩
    | none =>
      if p.ok then
        MixConfig.loadTail x env c1 fs [.InitConfigPath, .ParseVersion]
      else
        match x.convert c1 fs with
        | (c2, fs2, some e) => ⟨c2, fs2, [], some e, [.InitConfigPath, .ParseVersion, .convert]⟩
        | (c2, fs2, none) =>
          MixConfig.loadTail x env c2 fs2 [.InitConfigPath, .ParseVersion, .convert]

/-- The method `MixConfig.Convert`: the document, the files and the error. -/
def MixConfig.Convert (x : Externals) (cwd : Except String String) (config : MixConfig)
    (filename : String) (fs : FS) : MixConfig × FS × Option String :=
  match config.InitConfigPath cwd filename with
  | (c0, some e) => (c0, fs, some e)
  | (c0, none) =>
    match MixConfig.LoadDefaults x.CurrentConfigVersion c0 cwd with
    | (c1, some e) => (c1, fs, some e)
    | (c1, none) =>
      let p := x.ParseVersion fs c1.filename c1.version x.CurrentConfigVersion
      let c2 := { c1 with version := p.version }
      match p.err with
      | some e => (c2, fs, some e)
      | none => if p.ok then (c2, fs, none) else x.convert c2 fs

/-- The method `MixConfig.SetFilename`. -/
def MixConfig.SetFilename (config : MixConfig) (filename : String) : MixConfig :=
  { config with filename := filename }

/-- The method `MixConfig.GetFilename`. -/
def MixConfig.GetFilename (config : MixConfig) : String :=
  config.filename

/-- The method `MixConfig.SetVersion`. -/
def MixConfig.SetVersion (config : MixConfig) (version : String) : MixConfig :=
  { config with version := version }

/-- The method `MixConfig.GetVersion`. -/
def MixConfig.GetVersion (config : MixConfig) : String :=
  config.version

/-! ## `MixState` (`mixstate.go`) -/

/-- The `[Mix]` section of the state file. -/
structure mixSection where
  Format : String
  Offline : String
  deriving DecidableEq, Repr

/-- The current state of the mix, with its hidden properties. -/
structure MixState where
  Mix : mixSection
  filename : String
  version : String
  formatSource : String
  deriving DecidableEq, Repr

/-- The current revision of the state file structure. -/
def CurrentStateVersion : String := "1.1"

/-- The default path of the format file specified by swupd. -/
def DefaultFormatPath : String := "/usr/share/defaults/swupd/format"

/-- The class `\s` of Go regular expressions: `[\t\n\f\r ]`. -/
def isSpace (c : Char) : Bool :=
  c == '\t' || c == '\n' || c == '\x0c' || c == '\r' || c == ' '

/-- A match of the pattern `FORMAT[\s"=]*([0-9]+)[\s"]*\n` of
`getFormatFromConfig` starting at the first character: the captured digits.
The three repetitions range over disjoint classes, so each takes its whole
run; the last run must give back a line feed for the closing `\n`, which it
can when it holds one. -/
def matchFormatAt (s : List Char) : Option (List Char) :=
  if "FORMAT".data <+: s then
    let r1 := (s.drop 6).dropWhile (fun c => isSpace c || c == '"' || c == '=')
    if r1.takeWhile Char.isDigit = [] then none
    else if '\n' ∈ (r1.dropWhile Char.isDigit).takeWhile (fun c => isSpace c || c == '"') then
      some (r1.takeWhile Char.isDigit)
    else none
  else none

/-- The leftmost match, as `FindStringSubmatch` finds it: its capture. -/
def findFormat : List Char → Option (List Char)
  | [] => none
  | c :: cs =>
    match matchFormatAt (c :: cs) with
    | some d => some d
    | none => findFormat cs

/-- The method `getFormatFromConfig`: the format and the error. -/
def MixState.getFormatFromConfig (fs : FS) : String × Option OSError :=
  match fs.ReadFile "builder.conf" with
  | .error e => ("", some e)
  | .ok confBytes =>
    match findFormat confBytes.data with
    | some d => (String.mk d, none)
    | none => ("", none)

/-- The method `loadDefaultFormat`. -/
def MixState.loadDefaultFormat (state : MixState) (fs : FS) : MixState :=
  if (MixState.getFormatFromConfig fs).2 = none ∧ (MixState.getFormatFromConfig fs).1 ≠ "" then
    { state with
      Mix := { state.Mix with Format := (MixState.getFormatFromConfig fs).1 }
      formatSource := "builder.conf" }
  else
    match fs.ReadFile DefaultFormatPath with
    | .ok formatBytes =>
      { state with
        Mix := { state.Mix with Format := formatBytes }
        formatSource := DefaultFormatPath }
    | .error _ =>
      { state with
        Mix := { state.Mix with Format := "1" }
        formatSource := "Mixer internal value" }

/-- The method `MixState.LoadDefaults`. -/
def MixState.LoadDefaults (state : MixState) (fs : FS) : MixState :=
  { state.loadDefaultFormat fs with
    Mix := { (state.loadDefaultFormat fs).Mix with Offline := "false" }
    filename := "mixer.state"
    version := CurrentStateVersion }

/-- The method `MixState.Save`, with the TOML encoder as argument. -/
def MixState.Save (encode : MixState → Except String String) (state : MixState)
    (fs : FS) : FS × Option String :=
  match encode state with
  | .error e => (fs, some e)
  | .ok body =>
    match fs.WriteFile state.filename (saveBuffer state.version body) with
    | (fs1, none) => (fs1, none)
    | (fs1, some e) => (fs1, some (e.Error "open" state.filename))

/-- The parts `MixState.Load` calls that are not among the sources at hand:
`ParseVersion` (as for the config), the TOML encoder and `toml.DecodeFile`. -/
structure StateExternals where
  ParseVersion : FS → String → String → String → Parsed
  encode : MixState → Except String String
  decode : FS → String → MixState → MixState × Option String

/-- What `MixState.Load` leaves behind: the state, the files, the lines
written to the log and to the standard output, and the error returned. -/
structure LoadedState where
  state : MixState
  fs : FS
  log : List String
  err : Option String
  deriving DecidableEq, Repr

/-- The method `MixState.Load`. -/
def MixState.Load (x : StateExternals) (state : MixState) (filename : String) (fs : FS) :
    LoadedState :=
  let s0 := state.LoadDefaults fs
  let s1 := if filename ≠ "" then { s0 with filename := filename } else s0
  match fs.Open s1.filename with
  | .error _ =>
    ⟨s1, (MixState.Save x.encode s1 fs).1,
      ["Warning: Using FORMAT value from " ++ s1.formatSource],
      (MixState.Save x.encode s1 fs).2⟩
  | .ok _ =>
    let p := x.ParseVersion fs s1.filename s1.version CurrentStateVersion
    let s2 := { s1 with version := p.version }
    match p.err with
    | some e => ⟨s2, fs, [], some e⟩
    | none =>
      if p.ok then
        ⟨(x.decode fs s2.filename s2).1, fs, [], (x.decode fs s2.filename s2).2⟩
      else
        let s3 := { s2 with version := CurrentStateVersion }
        ⟨s3, (MixState.Save x.encode s3 fs).1,
          ["Converting state to version " ++ CurrentStateVersion ++ "\n"],
          (MixState.Save x.encode s3 fs).2⟩

/-- The method `MixState.SetFilename`. -/
def MixState.SetFilename (state : MixState) (filename : String) : MixState :=
  { state with filename := filename }

/-- The method `MixState.GetFilename`. -/
def MixState.GetFilename (state : MixState) : String :=
  state.filename

/-- The method `MixState.SetVersion`. -/
def MixState.SetVersion (state : MixState) (version : String) : MixState :=
  { state with version := version }

/-- The method `MixState.GetVersion`. -/
def MixState.GetVersion (state : MixState) : String :=
  state.version

/-- The method `MixState.GetLatestVersion`. -/
def MixState.GetLatestVersion (_state : MixState) : String :=
  CurrentStateVersion

/-- The zero value of `MixState`. -/
def MixState.zero : MixState :=
  { Mix := ⟨"", ""⟩, filename := "", version := "", formatSource := "" }

/-! ## Lemmas on `filepath.Join` -/

theorem splitSlash_ne_nil (p : List Char) : splitSlash p ≠ [] := by
  cases p with
  | nil => simp [splitSlash]
  | cons c cs =>
    simp only [splitSlash]
    split_ifs
    · simp
    · split <;> simp

theorem splitSlash_append (a b : List Char) :
    splitSlash (a ++ '/' :: b) = splitSlash a ++ splitSlash b := by
  induction a with
  | nil => simp [splitSlash]
  | cons c cs ih =>
    by_cases hc : c = '/'
    · simp [splitSlash, hc, ih]
    · simp only [List.cons_append, splitSlash, hc, if_false]
      have ih2 : splitSlash (cs.append ('/' :: b)) = splitSlash cs ++ splitSlash b := ih
      rw [ih2]
      cases h : splitSlash cs with
      | nil => exact absurd h (splitSlash_ne_nil cs)
      | cons x xs => simp

theorem splitSlash_plain (n : List Char) (h : '/' ∉ n) : splitSlash n = [n] := by
  induction n with
  | nil => simp [splitSlash]
  | cons c cs ih =>
    have hc : c ≠ '/' := fun e => h (by simp [e])
    have hcs : '/' ∉ cs := fun e => h (by simp [e])
    simp [splitSlash, hc, ih hcs]

theorem plainName_spec (n : List Char) (h : plainName n = true) :
    n ≠ [] ∧ '/' ∉ n ∧ n ≠ ['.'] ∧ n ≠ ['.', '.'] := by
  simpa [plainName, and_assoc] using h

theorem cleanStep_plain (r : Bool) (n : List Char) (stack : List (List Char))
    (h : plainName n = true) : cleanStep r stack n = n :: stack := by
  obtain ⟨h1, -, h3, h4⟩ := plainName_spec n h
  simp [cleanStep, h1, h3, h4]

theorem isRooted_append (a b : List Char) (h : a ≠ []) : isRooted (a ++ b) = isRooted a := by
  cases a with
  | nil => exact absurd rfl h
  | cons c cs => rfl

theorem cleanComps_join (P n : List Char) (hP : P ≠ []) (h : plainName n = true) :
    cleanComps (P ++ '/' :: n) = cleanComps P ++ [n] := by
  obtain ⟨-, h2, -, -⟩ := plainName_spec n h
  simp [cleanComps, splitSlash_append, splitSlash_plain n h2, isRooted_append P _ hP,
    cleanStep_plain _ n _ h]

theorem cleanComps_plain (n : List Char) (h : plainName n = true) : cleanComps n = [n] := by
  obtain ⟨-, h2, -, -⟩ := plainName_spec n h
  simp [cleanComps, splitSlash_plain n h2, cleanStep_plain _ n _ h]

theorem joinSlash_snoc (cs : List (List Char)) (n : List Char) (h : cs ≠ []) :
    joinSlash (cs ++ [n]) = joinSlash cs ++ '/' :: n := by
  induction cs with
  | nil => exact absurd rfl h
  | cons c t ih =>
    cases t with
    | nil => simp [joinSlash]
    | cons d t2 =>
      have := ih (by simp)
      simp only [List.cons_append] at this ⊢
      simp [joinSlash, this]

theorem isRooted_plain (n : List Char) (h : plainName n = true) : isRooted n = false := by
  obtain ⟨h1, h2, -, -⟩ := plainName_spec n h
  cases n with
  | nil => rfl
  | cons c cs =>
    have hc : c ≠ '/' := fun e => h2 (by simp [e])
    simp [isRooted, hc]

/-- The cleaned join of a directory and a plain name, spelled out: the cleaned
directory, a separator and the name, the directories `.` and `/` apart. -/
theorem Clean_join (P n : List Char) (hP : P ≠ []) (h : plainName n = true) :
    Clean (P ++ '/' :: n) =
      if cleanComps P = [] then (if isRooted P then '/' :: n else n)
      else Clean P ++ '/' :: n := by
  by_cases hc : cleanComps P = []
  · by_cases hr : isRooted P = true
    · simp [Clean, cleanComps_join P n hP h, isRooted_append P _ hP, hc, hr, joinSlash]
    · simp [Clean, cleanComps_join P n hP h, isRooted_append P _ hP, hc, hr, joinSlash]
  · by_cases hr : isRooted P = true
    · simp [Clean, cleanComps_join P n hP h, isRooted_append P _ hP, hc, hr,
        joinSlash_snoc _ n hc]
    · simp [Clean, cleanComps_join P n hP h, isRooted_append P _ hP, hc, hr,
        joinSlash_snoc _ n hc]

theorem Clean_plain (n : List Char) (h : plainName n = true) : Clean n = n := by
  simp [Clean, cleanComps_plain n h, isRooted_plain n h, joinSlash]

theorem plainRel_plain (n : List Char) (h : plainName n = true) : plainRel n = true := by
  obtain ⟨h1, h2, h3, h4⟩ := plainName_spec n h
  simp [plainRel, splitSlash_plain n h2, h1, h3, h4]

theorem string_ne_empty (s : String) : s ≠ "" ↔ s.data ≠ [] := by
  constructor
  · intro h e
    apply h
    cases s
    simp_all
  · intro h e
    apply h
    rw [e]

theorem filepathJoin_pair (P n : String) (h : plainName n.data = true) :
    filepathJoin [P, n] =
      if P = "" then n else String.mk (Clean (P.data ++ '/' :: n.data)) := by
  have hn : n ≠ "" := (string_ne_empty n).2 (plainName_spec _ h).1
  by_cases hP : P = ""
  · simp [filepathJoin, hP, hn, joinElems, Clean_plain _ h]
  · simp [filepathJoin, hP, joinElems]

/-- Joining a base path and a plain name gives a non-empty path under the base
path. -/
theorem filepathJoin_under (P n : String) (h : plainName n.data = true) :
    filepathJoin [P, n] ≠ "" ∧ underPath P (filepathJoin [P, n]) := by
  obtain ⟨h1, h2, h3, h4⟩ := plainName_spec _ h
  rw [filepathJoin_pair P n h]
  by_cases hP : P = ""
  · subst hP
    refine ⟨by simpa using (string_ne_empty n).2 h1, Or.inr ?_⟩
    simp only [if_true]
    have : Clean "".data = ['.'] := by decide
    simp [underDir, this, plainRel_plain _ h]
  · have hPd : P.data ≠ [] := (string_ne_empty P).1 hP
    simp only [hP, if_false]
    rw [Clean_join _ _ hPd h]
    by_cases hc : cleanComps P.data = []
    · by_cases hr : isRooted P.data = true
      · have hcl : Clean P.data = ['/'] := by simp [Clean, hc, hr, joinSlash]
        refine ⟨by simp [hc, hr, string_ne_empty], Or.inr ?_⟩
        simp [underDir, hcl, hc, hr, plainRel_plain _ h]
      · have hcl : Clean P.data = ['.'] := by simp [Clean, hc, hr]
        refine ⟨by simp [hc, hr, string_ne_empty, h1], Or.inr ?_⟩
        simp [underDir, hcl, hc, hr, plainRel_plain _ h]
    · refine ⟨by simp [hc, string_ne_empty], Or.inr ?_⟩
      simp [underDir, hc, plainRel_plain _ h]

/-! ## C1: defaults for a base path -/

/-- The empty string names no directory and is not a base path: for it
`LoadDefaultsForPath` leaves `VersionPath` (`VERSIONS_PATH`) empty. The one
caller, `LoadDefaults`, passes the result of `os.Getwd`, which is not empty. -/
theorem LoadDefaultsForPath_empty_path :
    ¬ ((MixConfig.LoadDefaultsForPath "1.0" MixConfig.zero "").Builder.Cert ≠ "" ∧
        (MixConfig.LoadDefaultsForPath "1.0" MixConfig.zero "").Builder.ServerStateDir ≠ "" ∧
        (MixConfig.LoadDefaultsForPath "1.0" MixConfig.zero "").Builder.VersionPath ≠ "" ∧
        (MixConfig.LoadDefaultsForPath "1.0" MixConfig.zero "").Builder.DNFConf ≠ "") := by
  decide

/-- C1: for every base path `P` (a path: a non-empty string, as `os.Getwd`
gives to the one caller), whatever the receiver held before,
`LoadDefaultsForPath(P)` leaves the four required Builder fields
non-empty, and each path-derived field (Cert, ServerStateDir, VersionPath,
DNFConf, LocalBundleDir, LocalRPMDir, LocalRepoDir and the hidden file name) is
`P` itself or a path under `P`. -/
theorem LoadDefaultsForPath_required_and_under (ver : String) (config : MixConfig)
    (P : String) (hP : P ≠ "") :
    ((MixConfig.LoadDefaultsForPath ver config P).Builder.Cert ≠ "" ∧
      (MixConfig.LoadDefaultsForPath ver config P).Builder.ServerStateDir ≠ "" ∧
      (MixConfig.LoadDefaultsForPath ver config P).Builder.VersionPath ≠ "" ∧
      (MixConfig.LoadDefaultsForPath ver config P).Builder.DNFConf ≠ "") ∧
    (underPath P (MixConfig.LoadDefaultsForPath ver config P).Builder.Cert ∧
      underPath P (MixConfig.LoadDefaultsForPath ver config P).Builder.ServerStateDir ∧
      underPath P (MixConfig.LoadDefaultsForPath ver config P).Builder.VersionPath ∧
      underPath P (MixConfig.LoadDefaultsForPath ver config P).Builder.DNFConf ∧
      underPath P (MixConfig.LoadDefaultsForPath ver config P).Mixer.LocalBundleDir ∧
      underPath P (MixConfig.LoadDefaultsForPath ver config P).Mixer.LocalRPMDir ∧
      underPath P (MixConfig.LoadDefaultsForPath ver config P).Mixer.LocalRepoDir ∧
      underPath P (MixConfig.LoadDefaultsForPath ver config P).filename) := by
  have h1 := filepathJoin_under P "Swupd_Root.pem" (by decide)
  have h2 := filepathJoin_under P "update" (by decide)
  have h3 := filepathJoin_under P ".yum-mix.conf" (by decide)
  have h4 := filepathJoin_under P "local-bundles" (by decide)
  have h5 := filepathJoin_under P "local-rpms" (by decide)
  have h6 := filepathJoin_under P "local-yum" (by decide)
  have h7 := filepathJoin_under P "builder.conf" (by decide)
  exact ⟨⟨h1.1, h2.1, hP, h3.1⟩, h1.2, h2.2, Or.inl rfl, h3.2, h4.2, h5.2, h6.2, h7.2⟩

/-- C1, at the base path `/home/mix`. -/
theorem LoadDefaultsForPath_required_and_under_witness :
    ("/home/mix" : String) ≠ "" ∧
    (MixConfig.LoadDefaultsForPath "1.0" MixConfig.zero "/home/mix").Builder.Cert
      = "/home/mix/Swupd_Root.pem" ∧
    (MixConfig.LoadDefaultsForPath "1.0" MixConfig.zero "/home/mix").Builder.Cert ≠ "" ∧
    underPath "/home/mix"
      (MixConfig.LoadDefaultsForPath "1.0" MixConfig.zero "/home/mix").filename :=
  ⟨by decide, by decide,
    (LoadDefaultsForPath_required_and_under "1.0" MixConfig.zero "/home/mix" (by decide)).1.1,
    (LoadDefaultsForPath_required_and_under "1.0" MixConfig.zero "/home/mix"
      (by decide)).2.2.2.2.2.2.2.2⟩

/-! ## C2, C3: validation -/

/-- C2: `validate` fails exactly when a field tagged `required:"true"` is empty.
The fields so tagged are the four Builder fields; the error names, by its TOML
key, the first empty one in declaration order (so the only one when exactly
one is empty); and the flag `hasFormatField` changes nothing in the error. -/
theorem validate_required (c : MixConfig) :
    ((MixConfig.fieldRefs.filter
        (fun f => f.info.Lookup "required" = some "true")).map (fun f => f.info.Name)
      = ["Cert", "ServerStateDir", "VersionPath", "DNFConf"]) ∧
    (c.validate.1 ≠ none ↔
      ∃ f ∈ MixConfig.fieldRefs, f.info.Lookup "required" = some "true" ∧ f.get c = "") ∧
    (c.validate.1 =
      if c.Builder.Cert = "" then some "Missing required field in config file: CERT"
      else if c.Builder.ServerStateDir = "" then
        some "Missing required field in config file: SERVER_STATE_DIR"
      else if c.Builder.VersionPath = "" then
        some "Missing required field in config file: VERSIONS_PATH"
      else if c.Builder.DNFConf = "" then
        some "Missing required field in config file: YUM_CONF"
      else none) ∧
    (∀ b : Bool, ({ c with hasFormatField := b } : MixConfig).validate.1 = c.validate.1) := by
  have key : ∀ d : MixConfig, d.validate.1 =
      if d.Builder.Cert = "" then some "Missing required field in config file: CERT"
      else if d.Builder.ServerStateDir = "" then
        some "Missing required field in config file: SERVER_STATE_DIR"
      else if d.Builder.VersionPath = "" then
        some "Missing required field in config file: VERSIONS_PATH"
      else if d.Builder.DNFConf = "" then
        some "Missing required field in config file: YUM_CONF"
      else none := by
    intro d
    simp only [MixConfig.validate, MixConfig.fieldRefs, firstMissing, missingName,
      StructField.Lookup]
    by_cases h1 : d.Builder.Cert = ""
    · simp [h1]
    · by_cases h2 : d.Builder.ServerStateDir = ""
      · simp [h1, h2]
      · by_cases h3 : d.Builder.VersionPath = ""
        · simp [h1, h2, h3]
        · by_cases h4 : d.Builder.DNFConf = ""
          · simp [h1, h2, h3, h4]
          · simp [h1, h2, h3, h4]
  refine ⟨by decide, ?_, key c, fun b => by rw [key, key]⟩
  rw [key c]
  simp only [MixConfig.fieldRefs, StructField.Lookup]
  by_cases h1 : c.Builder.Cert = ""
  · simp [h1]
  · by_cases h2 : c.Builder.ServerStateDir = ""
    · simp [h1, h2]
    · by_cases h3 : c.Builder.VersionPath = ""
      · simp [h1, h2, h3]
      · by_cases h4 : c.Builder.DNFConf = ""
        · simp [h1, h2, h3, h4]
        · simp [h1, h2, h3, h4]

/-- C3 (counterexample): a document with the defaults for `/mix` and its three
Mixer directory fields emptied passes `validate`. -/
theorem validate_empty_mixer_dirs :
    ({ MixConfig.LoadDefaultsForPath "1.0" MixConfig.zero "/mix" with
        Mixer := ⟨"", "", "", "clearlinux/mixer"⟩ } : MixConfig).Mixer.LocalBundleDir = "" ∧
    ({ MixConfig.LoadDefaultsForPath "1.0" MixConfig.zero "/mix" with
        Mixer := ⟨"", "", "", "clearlinux/mixer"⟩ } : MixConfig).validate.1 = none := by
  decide

/-- C3 (amended): all four Mixer fields (LocalBundleDir, LocalRepoDir,
LocalRPMDir and DockerImgPath) are tagged `required:"false"` and are optional:
the result of `validate` is the same whatever the Mixer section holds, empty
strings included. -/
theorem validate_mixer_optional (c : MixConfig) (m : mixerConf) :
    ((MixConfig.fieldRefs.filter
        (fun f => f.info.Lookup "required" = some "false")).map (fun f => f.info.Name)
      = ["Bundle", "ContentURL", "VersionURL", "DebugInfoBanned", "DebugInfoLib",
          "DebugInfoSrc", "LocalBundleDir", "LocalRepoDir", "LocalRPMDir", "DockerImgPath"]) ∧
    ({ c with Mixer := m } : MixConfig).validate = c.validate := by
  refine ⟨by decide, ?_⟩
  simp only [MixConfig.validate, MixConfig.fieldRefs, firstMissing, missingName,
    StructField.Lookup]
  simp

/-! ## C4, C5: environment expansion -/

theorem Indep_fieldRefs : Indep MixConfig.fieldRefs := by
  simp [Indep, MixConfig.fieldRefs]

theorem Indep_tail (f : FieldRef) (fs : List FieldRef) (h : Indep (f :: fs)) : Indep fs :=
  h.2.2

/-- What the fields visited do not touch is the same after the loop. -/
theorem expandLoop_frame {α : Type} (env : Env) (obs : MixConfig → α) (l : List FieldRef)
    (h : ∀ f ∈ l, ∀ c v, obs (f.set c v) = obs c) (c : MixConfig) :
    obs (expandLoop env l c).1 = obs c := by
  induction l generalizing c with
  | nil => rfl
  | cons f fs ih =>
    simp only [expandLoop]
    split
    · rfl
    · rw [ih (fun g hg => h g (List.mem_cons_of_mem _ hg))]
      exact h f (List.mem_cons_self _ _) _ _

theorem firstUndefined_append (env : Env) (a b : List String) :
    firstUndefined env (a ++ b) =
      match firstUndefined env a with
      | some n => some n
      | none => firstUndefined env b := by
  induction a with
  | nil => simp [firstUndefined]
  | cons x xs ih =>
    simp only [List.cons_append, firstUndefined]
    split_ifs
    · rfl
    · exact ih

/-- The error of the loop is the first undefined name among the names matched
in all the fields, in the order of the fields. -/
theorem expandLoop_err (env : Env) (l : List FieldRef) (hl : Indep l) (c : MixConfig) :
    (expandLoop env l c).2 =
      (firstUndefined env (l.flatMap (fun f => FindAllNames (f.get c)))).map
        (fun n => "buildconf contains an undefined environment variable: " ++ n ++ "\n") := by
  induction l generalizing c with
  | nil => rfl
  | cons f fs ih =>
    simp only [expandLoop, List.flatMap_cons, firstUndefined_append]
    cases hf : firstUndefined env (FindAllNames (f.get c)) with
    | some n => rfl
    | none =>
      simp only []
      rw [ih (Indep_tail f fs hl)]
      have : fs.flatMap (fun g => FindAllNames (g.get (f.set c (ExpandEnv env (f.get c))))) =
          fs.flatMap (fun g => FindAllNames (g.get c)) := by
        apply List.flatMap_congr
        intro g hg
        rw [(hl.2.1 g hg).1]
      rw [this]

/-- When the loop ends without error every field holds its expansion. -/
theorem expandLoop_ok (env : Env) (l : List FieldRef) (hl : Indep l) (c : MixConfig)
    (h : (expandLoop env l c).2 = none) :
    l.map (fun f => f.get (expandLoop env l c).1) = l.map (fun f => ExpandEnv env (f.get c)) := by
  induction l generalizing c with
  | nil => rfl
  | cons f fs ih =>
    simp only [expandLoop] at h ⊢
    cases hf : firstUndefined env (FindAllNames (f.get c)) with
    | some n => simp [hf] at h
    | none =>
      simp only [hf] at h ⊢
      simp only [List.map_cons]
      congr 1
      · rw [expandLoop_frame env f.get fs (fun g hg => (hl.2.1 g hg).2)]
        exact hl.1 _ _
      · rw [ih (Indep_tail f fs hl) _ h]
        apply List.map_congr_left
        intro g hg
        rw [(hl.2.1 g hg).1]

/-- When the loop ends with an error, it stopped at a field `k` whose value
holds an undefined name: the fields before `k` hold their expansions, the
field `k` and the fields after it are as they were. -/
theorem expandLoop_stop (env : Env) (l : List FieldRef) (hl : Indep l) (c c1 : MixConfig)
    (msg : String) (h : expandLoop env l c = (c1, some msg)) :
    ∃ k v name, (l.map (fun f => f.get c))[k]? = some v ∧
      firstUndefined env (FindAllNames v) = some name ∧
      msg = "buildconf contains an undefined environment variable: " ++ name ++ "\n" ∧
      (∀ j w, j < k → (l.map (fun f => f.get c))[j]? = some w →
        firstUndefined env (FindAllNames w) = none) ∧
      l.map (fun f => f.get c1) =
        ((l.map (fun f => f.get c)).take k).map (ExpandEnv env) ++
          (l.map (fun f => f.get c)).drop k := by
  induction l generalizing c with
  | nil => simp [expandLoop] at h
  | cons f fs ih =>
    simp only [expandLoop] at h
    cases hf : firstUndefined env (FindAllNames (f.get c)) with
    | some n =>
      simp only [hf, Prod.mk.injEq, Option.some.injEq] at h
      obtain ⟨rfl, rfl⟩ := h
      exact ⟨0, f.get c, n, by simp, hf, rfl, fun j w hj => absurd hj (Nat.not_lt_zero j),
        by simp⟩
    | none =>
      simp only [hf] at h
      obtain ⟨k, v, name, hk, hv, hm, hfirst, hvals⟩ := ih (Indep_tail f fs hl) _ h
      have hsame : fs.map (fun g => g.get (f.set c (ExpandEnv env (f.get c)))) =
          fs.map (fun g => g.get c) := by
        apply List.map_congr_left
        intro g hg
        rw [(hl.2.1 g hg).1]
      rw [hsame] at hk hvals hfirst
      refine ⟨k + 1, v, name, by simpa using hk, hv, hm, ?_, ?_⟩
      · intro j w hj hw
        cases j with
        | zero =>
          simp only [List.map_cons, List.getElem?_cons_zero, Option.some.injEq] at hw
          rw [← hw]
          exact hf
        | succ i =>
          simp only [List.map_cons, List.getElem?_cons_succ] at hw
          exact hfirst i w (Nat.lt_of_succ_lt_succ hj) hw
      simp only [List.map_cons, List.take_succ_cons, List.drop_succ_cons, List.cons_append]
      congr 1
      have : f.get c1 = f.get (expandLoop env fs (f.set c (ExpandEnv env (f.get c)))).1 := by
        rw [h]
      rw [this, expandLoop_frame env f.get fs (fun g hg => (hl.2.1 g hg).2)]
      exact hl.1 _ _

/-- C4 (counterexample): with `HOME` defined and `UNDEFINED` not, a document
whose Cert is `$HOME/cert` and whose ServerStateDir is `$UNDEFINED/update` makes
`expandEnv` fail, and Cert has been replaced by `/root/cert` all the same. -/
theorem expandEnv_not_all_or_nothing :
    (({ MixConfig.zero with Builder := ⟨"$HOME/cert", "$UNDEFINED/update", "/mix", "/mix/yum"⟩ } :
        MixConfig).expandEnv [("HOME", "/root")]).2 =
      some "buildconf contains an undefined environment variable: UNDEFINED\n" ∧
    (({ MixConfig.zero with Builder := ⟨"$HOME/cert", "$UNDEFINED/update", "/mix", "/mix/yum"⟩ } :
        MixConfig).expandEnv [("HOME", "/root")]).1.Builder.Cert = "/root/cert" ∧
    ("/root/cert" : String) ≠ "$HOME/cert" := by
  decide

/-- C4 (amended): environment expansion is checked and applied field by field.
When `expandEnv` returns an error, it does so at the first field, in declaration
order, whose value references an undefined variable (field `k` references one,
named in the message, and no field before `k` does): that field and every
field after it still hold their pre-call values, every field before it holds
its expansion, and the hidden properties are unchanged. -/
theorem expandEnv_error_partial (env : Env) (c c1 : MixConfig) (msg : String)
    (h : c.expandEnv env = (c1, some msg)) :
    ∃ k v name, c.values[k]? = some v ∧
      firstUndefined env (FindAllNames v) = some name ∧
      msg = "buildconf contains an undefined environment variable: " ++ name ++ "\n" ∧
      (∀ j w, j < k → c.values[j]? = some w →
        firstUndefined env (FindAllNames w) = none) ∧
      c1.values = (c.values.take k).map (ExpandEnv env) ++ c.values.drop k ∧
      c1.filename = c.filename ∧ c1.version = c.version ∧
      c1.hasFormatField = c.hasFormatField := by
  obtain ⟨k, v, name, hk, hv, hm, hfirst, hvals⟩ :=
    expandLoop_stop env MixConfig.fieldRefs Indep_fieldRefs c c1 msg h
  have hc1 : c1 = (expandLoop env MixConfig.fieldRefs c).1 := by
    rw [show expandLoop env MixConfig.fieldRefs c = (c1, some msg) from h]
  refine ⟨k, v, name, hk, hv, hm, hfirst, hvals, ?_, ?_, ?_⟩
  · rw [hc1]
    exact expandLoop_frame env (fun d => d.filename) _
      (by simp [MixConfig.fieldRefs]) c
  · rw [hc1]
    exact expandLoop_frame env (fun d => d.version) _
      (by simp [MixConfig.fieldRefs]) c
  · rw [hc1]
    exact expandLoop_frame env (fun d => d.hasFormatField) _
      (by simp [MixConfig.fieldRefs]) c

/-- C4 (amended), at the document of the counterexample: the loop stops at the
second field. -/
theorem expandEnv_error_partial_witness :
    ∃ k v name,
      ({ MixConfig.zero with Builder := ⟨"$HOME/cert", "$UNDEFINED/update", "/mix", "/mix/yum"⟩ } :
        MixConfig).values[k]? = some v ∧
      firstUndefined [("HOME", "/root")] (FindAllNames v) = some name ∧
      ("buildconf contains an undefined environment variable: UNDEFINED\n" : String) =
        "buildconf contains an undefined environment variable: " ++ name ++ "\n" ∧
      (∀ j w, j < k →
        ({ MixConfig.zero with
            Builder := ⟨"$HOME/cert", "$UNDEFINED/update", "/mix", "/mix/yum"⟩ } :
          MixConfig).values[j]? = some w →
        firstUndefined [("HOME", "/root")] (FindAllNames w) = none) ∧
      ({ MixConfig.zero with Builder := ⟨"/root/cert", "$UNDEFINED/update", "/mix", "/mix/yum"⟩ } :
        MixConfig).values =
        ((({ MixConfig.zero with
            Builder := ⟨"$HOME/cert", "$UNDEFINED/update", "/mix", "/mix/yum"⟩ } :
          MixConfig).values).take k).map (ExpandEnv [("HOME", "/root")]) ++
          (({ MixConfig.zero with
            Builder := ⟨"$HOME/cert", "$UNDEFINED/update", "/mix", "/mix/yum"⟩ } :
          MixConfig).values).drop k ∧
      MixConfig.zero.filename = MixConfig.zero.filename ∧
      MixConfig.zero.version = MixConfig.zero.version ∧
      MixConfig.zero.hasFormatField = MixConfig.zero.hasFormatField :=
  expandEnv_error_partial [("HOME", "/root")]
    { MixConfig.zero with Builder := ⟨"$HOME/cert", "$UNDEFINED/update", "/mix", "/mix/yum"⟩ }
    { MixConfig.zero with Builder := ⟨"/root/cert", "$UNDEFINED/update", "/mix", "/mix/yum"⟩ }
    "buildconf contains an undefined environment variable: UNDEFINED\n" (by decide)

theorem isAlphaNum_eq_isWordChar (c : Char) : isAlphaNum c = isWordChar c := by
  simp only [isAlphaNum, isWordChar]
  generalize (c == '_') = a
  generalize (decide ('0' ≤ c) && decide (c ≤ '9')) = b
  generalize (decide ('a' ≤ c) && decide (c ≤ 'z')) = d
  generalize (decide ('A' ≤ c) && decide (c ≤ 'Z')) = e
  cases a <;> cases b <;> cases d <;> cases e <;> rfl

theorem run_append (p : Char → Bool) (n R : List Char) (hn : ∀ x ∈ n, p x = true)
    (hR : R.head?.any p = false) :
    (n ++ R).takeWhile p = n ∧ (n ++ R).dropWhile p = R := by
  induction n with
  | nil =>
    cases R with
    | nil => simp
    | cons c r =>
      have hc : p c = false := by simpa using hR
      simp [List.takeWhile, List.dropWhile, hc]
  | cons x xs ih =>
    have hx : p x = true := hn x (List.mem_cons_self _ _)
    have := ih (fun y hy => hn y (List.mem_cons_of_mem _ hy))
    simp [List.takeWhile, List.dropWhile, hx, this.1, this.2]

theorem matchVarAt_ne (c : Char) (s : List Char) (hc : c ≠ '$') : matchVarAt (c :: s) = none := by
  unfold matchVarAt
  split
  · rename_i heq
    simp only [List.cons.injEq] at heq
    exact absurd heq.1 hc
  · rfl

theorem matchVarAt_var (n R : List Char) (hn : n ≠ []) (hw : ∀ x ∈ n, isWordChar x = true)
    (hR : R.head?.any isWordChar = false) :
    matchVarAt ('$' :: (n ++ R)) = some (n, skipBrace '}' R) := by
  obtain ⟨h1, h2⟩ := run_append isWordChar n R hw hR
  cases n with
  | nil => exact absurd rfl hn
  | cons x xs =>
    have hx : x ≠ '{' := by
      intro e
      have := hw x (List.mem_cons_self _ _)
      rw [e] at this
      exact absurd this (by decide)
    have hbody : skipBrace '{' (x :: xs ++ R) = x :: xs ++ R := by
      simp [skipBrace, hx]
    simp only [matchVarAt]
    rw [hbody, h1, h2]
    simp

theorem matchVarAt_braced (n R : List Char) (hn : n ≠ []) (hw : ∀ x ∈ n, isWordChar x = true) :
    matchVarAt ('$' :: '{' :: (n ++ '}' :: R)) = some (n, R) := by
  have hb : ('}' :: R).head?.any isWordChar = false := by
    show isWordChar '}' = false
    decide
  obtain ⟨h1, h2⟩ := run_append isWordChar n ('}' :: R) hw hb
  have hbody : skipBrace '{' ('{' :: (n ++ '}' :: R)) = n ++ '}' :: R := by
    simp [skipBrace]
  simp only [matchVarAt]
  rw [hbody, h1, h2]
  simp [hn, skipBrace]

theorem findAllAux_nil (fuel : Nat) : findAllAux fuel [] = [] := by
  cases fuel <;> rfl

theorem findAllAux_lit (t R : List Char) (ht : '$' ∉ t) (fuel : Nat)
    (hf : (t ++ R).length ≤ fuel) :
    ∃ fuel1, R.length ≤ fuel1 ∧ findAllAux fuel (t ++ R) = findAllAux fuel1 R := by
  induction t generalizing fuel with
  | nil => exact ⟨fuel, by simpa using hf, rfl⟩
  | cons c cs ih =>
    have hc : c ≠ '$' := fun e => ht (by simp [e])
    have hcs : '$' ∉ cs := fun e => ht (by simp [e])
    cases fuel with
    | zero => simp at hf
    | succ f =>
      obtain ⟨f1, h1, h2⟩ := ih hcs f (by simpa using hf)
      refine ⟨f1, h1, ?_⟩
      simp only [List.cons_append, findAllAux, matchVarAt_ne c _ hc]
      exact h2

theorem segsOK_var (n : List Char) (r : List Seg) (h : segsOK (.var n :: r) = true) :
    n ≠ [] ∧ (∀ x ∈ n, isWordChar x = true) ∧ n.head?.any Char.isDigit = false ∧
      (renderSegs r).head?.any isWordChar = false ∧ segsOK r = true := by
  simp only [segsOK, Bool.and_eq_true, Bool.not_eq_true', bne_iff_ne, ne_eq,
    List.all_eq_true] at h
  exact ⟨h.1.1.1.1, h.1.1.1.2, h.1.1.2, h.1.2, h.2⟩

theorem segsOK_braced (n : List Char) (r : List Seg) (h : segsOK (.braced n :: r) = true) :
    n ≠ [] ∧ (∀ x ∈ n, isWordChar x = true) ∧ segsOK r = true := by
  simp only [segsOK, Bool.and_eq_true, bne_iff_ne, ne_eq, List.all_eq_true] at h
  exact ⟨h.1.1, h.1.2, h.2⟩

theorem segsOK_lit (t : List Char) (r : List Seg) (h : segsOK (.lit t :: r) = true) :
    '$' ∉ t ∧ segsOK r = true := by
  simpa [segsOK] using h

theorem renderSegs_cons (sg : Seg) (r : List Seg) :
    renderSegs (sg :: r) = sg.render ++ renderSegs r := by
  simp [renderSegs]

/-- The names the pattern captures in a value made of well-formed pieces are
the names of its references. -/
theorem findAll_segs (segs : List Seg) (h : segsOK segs = true) :
    ∀ fuel, (renderSegs segs).length ≤ fuel →
      (findAllAux fuel (renderSegs segs)).map String.mk = segNames segs := by
  induction segs with
  | nil =>
    intro fuel _
    simp [renderSegs, findAllAux_nil, segNames]
  | cons sg r ih =>
    intro fuel hf
    rw [renderSegs_cons] at hf ⊢
    cases sg with
    | lit t =>
      obtain ⟨ht, hr⟩ := segsOK_lit t r h
      obtain ⟨f1, h1, h2⟩ := findAllAux_lit t (renderSegs r) ht fuel hf
      simp only [Seg.render, h2, segNames]
      exact ih hr f1 h1
    | var n =>
      obtain ⟨hn, hw, -, hR, hr⟩ := segsOK_var n r h
      cases fuel with
      | zero => simp [Seg.render] at hf
      | succ f =>
        simp only [Seg.render, List.cons_append, List.length_cons, List.length_append] at hf
        simp only [Seg.render, List.cons_append]
        rw [findAllAux, matchVarAt_var n (renderSegs r) hn hw hR]
        simp only [segNames, List.map_cons]
        congr 1
        cases hR1 : renderSegs r with
        | nil =>
          have := ih hr f (by omega)
          rw [hR1] at this
          simpa [skipBrace] using this
        | cons c r1 =>
          by_cases hc : c = '}'
          · have := ih hr (f + 1) (by omega)
            rw [hR1, hc] at this
            simpa [skipBrace, hc, findAllAux, matchVarAt_ne '}' r1 (by decide)] using this
          · have := ih hr f (by omega)
            rw [hR1] at this
            simpa [skipBrace, hc] using this
    | braced n =>
      obtain ⟨hn, hw, hr⟩ := segsOK_braced n r h
      cases fuel with
      | zero => simp [Seg.render] at hf
      | succ f =>
        simp only [Seg.render, List.cons_append, List.length_cons, List.length_append,
          List.append_assoc, List.singleton_append, List.nil_append, List.length_nil] at hf
        simp only [Seg.render, List.cons_append, List.append_assoc, List.singleton_append,
          List.nil_append]
        rw [findAllAux, matchVarAt_braced n (renderSegs r) hn hw]
        simp only [segNames, List.map_cons]
        congr 1
        exact ih hr f (by omega)

theorem word_not_special (x : Char) (hw : isWordChar x = true) (hd : x.isDigit = false) :
    isShellSpecialVar x = false := by
  by_contra hsp
  simp only [isShellSpecialVar, Bool.not_eq_false, decide_eq_true_eq, List.mem_cons,
    List.mem_singleton, List.not_mem_nil, or_false] at hsp
  rcases hsp with rfl | rfl | rfl | rfl | rfl | rfl | rfl | rfl | rfl | rfl | rfl | rfl | rfl |
    rfl | rfl | rfl | rfl <;>
  first
    | exact absurd hw (by decide)
    | exact absurd hd (by decide)

theorem word_ne_brace (x : Char) (hw : isWordChar x = true) : x ≠ '{' ∧ x ≠ '}' := by
  constructor <;> intro e <;> rw [e] at hw <;> exact absurd hw (by decide)

theorem getShellName_var (n R : List Char) (hn : n ≠ []) (hw : ∀ x ∈ n, isWordChar x = true)
    (hd : n.head?.any Char.isDigit = false) (hR : R.head?.any isWordChar = false) :
    getShellName (n ++ R) = (n, n.length) := by
  have hfun : isAlphaNum = isWordChar := funext isAlphaNum_eq_isWordChar
  obtain ⟨h1, -⟩ := run_append isAlphaNum n R (by rw [hfun]; exact hw) (by rw [hfun]; exact hR)
  cases n with
  | nil => exact absurd rfl hn
  | cons x xs =>
    have hwx := hw x (List.mem_cons_self _ _)
    have hdx : x.isDigit = false := by simpa using hd
    have hsp := word_not_special x hwx hdx
    have hx := (word_ne_brace x hwx).1
    simp only [List.cons_append] at h1 ⊢
    simp only [getShellName, hx, hsp, if_false, Bool.false_eq_true, h1]

theorem getShellName_braced (n R : List Char) (hn : n ≠ [])
    (hw : ∀ x ∈ n, isWordChar x = true) :
    getShellName ('{' :: (n ++ '}' :: R)) = (n, n.length + 2) := by
  have hrun := run_append (fun x => x != '}') n ('}' :: R)
    (fun x hx => by simpa using (word_ne_brace x (hw x hx)).2) (by simp)
  have hmem : '}' ∈ n ++ '}' :: R := by simp
  cases n with
  | nil => exact absurd rfl hn
  | cons x xs =>
    cases xs with
    | nil =>
      have hx := (word_ne_brace x (hw x (List.mem_cons_self _ _))).2
      by_cases hsp : isShellSpecialVar x = true
      · simp [getShellName, hsp]
      · simp [getShellName, hsp, hx]
    | cons y zs =>
      have hy := (word_ne_brace y (hw y (by simp))).2
      have hcond : (match (x :: y :: zs ++ '}' :: R : List Char) with
          | c1 :: c2 :: _ => isShellSpecialVar c1 && c2 == '}'
          | _ => false) = false := by
        simp [hy]
      simp only [getShellName, if_true, hcond, Bool.false_eq_true, if_false, hmem, hrun.1]
      simp

theorem expandAux_nil (m : String → String) (fuel : Nat) : expandAux m fuel [] = [] := by
  cases fuel <;> rfl

theorem expandAux_lit (m : String → String) (t R : List Char) (ht : '$' ∉ t) (fuel : Nat)
    (hf : (t ++ R).length ≤ fuel) :
    ∃ fuel1, R.length ≤ fuel1 ∧ expandAux m fuel (t ++ R) = t ++ expandAux m fuel1 R := by
  induction t generalizing fuel with
  | nil => exact ⟨fuel, by simpa using hf, rfl⟩
  | cons c cs ih =>
    have hc : c ≠ '$' := fun e => ht (by simp [e])
    have hcs : '$' ∉ cs := fun e => ht (by simp [e])
    cases fuel with
    | zero => simp at hf
    | succ f =>
      obtain ⟨f1, h1, h2⟩ := ih hcs f (by simpa using hf)
      refine ⟨f1, h1, ?_⟩
      simp only [List.cons_append]
      rw [expandAux]
      simp [hc, h2]

/-- The expansion of a value made of well-formed pieces is the value with each
reference replaced by the value of its variable. -/
theorem expand_segs (env : Env) (segs : List Seg) (h : segsOK segs = true) :
    ∀ fuel, (renderSegs segs).length ≤ fuel →
      expandAux (Getenv env) fuel (renderSegs segs) = substSegs env segs := by
  induction segs with
  | nil =>
    intro fuel _
    simp [renderSegs, expandAux_nil, substSegs]
  | cons sg r ih =>
    intro fuel hf
    rw [renderSegs_cons] at hf ⊢
    cases sg with
    | lit t =>
      obtain ⟨ht, hr⟩ := segsOK_lit t r h
      obtain ⟨f1, h1, h2⟩ := expandAux_lit (Getenv env) t (renderSegs r) ht fuel hf
      simp only [Seg.render, h2, substSegs]
      rw [ih hr f1 h1]
    | var n =>
      obtain ⟨hn, hw, hd, hR, hr⟩ := segsOK_var n r h
      cases fuel with
      | zero => simp [Seg.render] at hf
      | succ f =>
        simp only [Seg.render, List.cons_append, List.length_cons, List.length_append] at hf
        simp only [Seg.render, List.cons_append]
        rw [expandAux, getShellName_var n (renderSegs r) hn hw hd hR]
        simp only [substSegs, hn, if_false, List.drop_left]
        rw [ih hr f (by omega)]
        simp [hn]
    | braced n =>
      obtain ⟨hn, hw, hr⟩ := segsOK_braced n r h
      cases fuel with
      | zero => simp [Seg.render] at hf
      | succ f =>
        simp only [Seg.render, List.cons_append, List.length_cons, List.length_append,
          List.append_assoc, List.singleton_append, List.nil_append, List.length_nil] at hf
        simp only [Seg.render, List.cons_append, List.append_assoc, List.singleton_append,
          List.nil_append]
        rw [expandAux, getShellName_braced n (renderSegs r) hn hw]
        have hdrop : List.drop (n.length + 2) ('{' :: (n ++ '}' :: renderSegs r)) =
            renderSegs r := by
          have : n.length + 2 = (('{' :: n) ++ ['}']).length := by simp
          rw [this]
          have h2 : ('{' :: (n ++ '}' :: renderSegs r)) =
              (('{' :: n) ++ ['}']) ++ renderSegs r := by simp
          rw [h2, List.drop_left]
        simp only [substSegs, hn, if_false, hdrop]
        rw [ih hr f (by omega)]
        simp

theorem skipBrace_length (b : Char) (s : List Char) : (skipBrace b s).length ≤ s.length := by
  cases s with
  | nil => simp [skipBrace]
  | cons c r =>
    simp only [skipBrace]
    split_ifs <;> simp

theorem dropWhile_length (p : Char → Bool) (s : List Char) :
    (s.dropWhile p).length ≤ s.length := by
  induction s with
  | nil => simp
  | cons c r ih =>
    simp only [List.dropWhile_cons]
    split_ifs
    · exact Nat.le_succ_of_le ih
    · exact Nat.le_refl _

theorem matchVarAt_length (c : Char) (cs name rest : List Char)
    (h : matchVarAt (c :: cs) = some (name, rest)) : rest.length ≤ cs.length := by
  unfold matchVarAt at h
  split at h
  · rename_i r heq
    simp only [List.cons.injEq] at heq
    obtain ⟨-, rfl⟩ := heq
    split_ifs at h
    simp only [Option.some.injEq, Prod.mk.injEq] at h
    rw [← h.2]
    exact Nat.le_trans (skipBrace_length _ _)
      (Nat.le_trans (dropWhile_length _ _) (skipBrace_length _ _))
  · simp at h

/-- The search for matches does not depend on its bound, once the bound is at
least the length of the text: the bound is never used up. -/
theorem findAllAux_fuel (f1 : Nat) : ∀ (s : List Char) (f2 : Nat),
    s.length ≤ f1 → s.length ≤ f2 → findAllAux f1 s = findAllAux f2 s := by
  induction f1 with
  | zero =>
    intro s f2 h1 _
    have : s = [] := List.length_eq_zero.mp (Nat.le_zero.mp h1)
    subst this
    simp [findAllAux_nil]
  | succ k ih =>
    intro s f2 h1 h2
    cases s with
    | nil => simp [findAllAux_nil]
    | cons c cs =>
      cases f2 with
      | zero => simp at h2
      | succ j =>
        simp only [List.length_cons, Nat.add_le_add_iff_right] at h1 h2
        simp only [findAllAux]
        cases hm : matchVarAt (c :: cs) with
        | none => exact ih cs j h1 h2
        | some pr =>
          obtain ⟨name, rest⟩ := pr
          have hl := matchVarAt_length c cs name rest hm
          simp only []
          rw [ih rest j (Nat.le_trans hl h1) (Nat.le_trans hl h2)]

/-- The expansion does not depend on its bound, once the bound is at least the
length of the text: the bound is never used up. -/
theorem expandAux_fuel (m : String → String) (f1 : Nat) : ∀ (s : List Char) (f2 : Nat),
    s.length ≤ f1 → s.length ≤ f2 → expandAux m f1 s = expandAux m f2 s := by
  induction f1 with
  | zero =>
    intro s f2 h1 _
    have : s = [] := List.length_eq_zero.mp (Nat.le_zero.mp h1)
    subst this
    simp [expandAux_nil]
  | succ k ih =>
    intro s f2 h1 h2
    cases s with
    | nil => simp [expandAux_nil]
    | cons c cs =>
      cases f2 with
      | zero => simp at h2
      | succ j =>
        simp only [List.length_cons, Nat.add_le_add_iff_right] at h1 h2
        simp only [expandAux]
        have hd : (cs.drop (getShellName cs).2).length ≤ cs.length := by
          simp
        rw [ih cs j h1 h2, ih _ j (Nat.le_trans hd h1) (Nat.le_trans hd h2)]

theorem FindAllNames_segs (segs : List Seg) (h : segsOK segs = true) :
    FindAllNames (String.mk (renderSegs segs)) = segNames segs := by
  show (findAllAux (renderSegs segs).length (renderSegs segs)).map String.mk = segNames segs
  exact findAll_segs segs h _ (Nat.le_refl _)

theorem ExpandEnv_segs (env : Env) (segs : List Seg) (h : segsOK segs = true) :
    ExpandEnv env (String.mk (renderSegs segs)) = String.mk (substSegs env segs) := by
  show String.mk (expandAux (Getenv env) (renderSegs segs).length (renderSegs segs)) = _
  rw [expand_segs env segs h _ (Nat.le_refl _)]

/-- C5 (counterexample): with `FOO=/opt` the value `$$FOO` passes the check (the
only name matched, `FOO`, is defined) and `expandEnv` succeeds, but the field
becomes `FOO`, not the value with the reference `$FOO` replaced by `/opt`; and
with `1abc=/opt` the value `$1abc` passes the check and becomes `abc`. -/
theorem expandEnv_not_substitution :
    FindAllNames "$$FOO" = ["FOO"] ∧
    LookupEnv [("FOO", "/opt")] "FOO" = some "/opt" ∧
    (({ MixConfig.zero with Builder := ⟨"$$FOO", "", "", ""⟩ } : MixConfig).expandEnv
        [("FOO", "/opt")]).2 = none ∧
    (({ MixConfig.zero with Builder := ⟨"$$FOO", "", "", ""⟩ } : MixConfig).expandEnv
        [("FOO", "/opt")]).1.Builder.Cert = "FOO" ∧
    ("FOO" : String) ≠ "$/opt" ∧
    FindAllNames "$1abc" = ["1abc"] ∧
    LookupEnv [("1abc", "/opt")] "1abc" = some "/opt" ∧
    (({ MixConfig.zero with Builder := ⟨"$1abc", "", "", ""⟩ } : MixConfig).expandEnv
        [("1abc", "/opt")]).2 = none ∧
    (({ MixConfig.zero with Builder := ⟨"$1abc", "", "", ""⟩ } : MixConfig).expandEnv
        [("1abc", "/opt")]).1.Builder.Cert = "abc" ∧
    ("abc" : String) ≠ "/opt" := by
  decide

/-- C5 (amended): take a document whose field values are made of literal text
without `$` and of references `$NAME` and `${NAME}`, NAME a non-empty run of
word characters which, in the form without braces, does not start with a digit
and is not followed by a word character. If some referenced name is undefined,
`expandEnv` fails with the message naming the first undefined name, in the
order of the fields and of the references in a field. If every referenced name
is defined, `expandEnv` succeeds and every field equals its value with each
reference replaced by the value of the variable. -/
theorem expandEnv_segments (env : Env) (c : MixConfig) (segs : List (List Seg))
    (hv : c.values = segs.map (fun sg => String.mk (renderSegs sg)))
    (hok : ∀ sg ∈ segs, segsOK sg = true) :
    (∀ name, firstUndefined env (segs.flatMap segNames) = some name →
      (c.expandEnv env).2 =
        some ("buildconf contains an undefined environment variable: " ++ name ++ "\n")) ∧
    (firstUndefined env (segs.flatMap segNames) = none →
      (c.expandEnv env).2 = none ∧
      (c.expandEnv env).1.values = segs.map (fun sg => String.mk (substSegs env sg))) := by
  have hnames : MixConfig.fieldRefs.flatMap (fun f => FindAllNames (f.get c)) =
      segs.flatMap segNames := by
    have h1 : MixConfig.fieldRefs.flatMap (fun f => FindAllNames (f.get c)) =
        c.values.flatMap FindAllNames := by
      simp [MixConfig.values, List.flatMap_def, List.map_map, Function.comp_def]
    rw [h1, hv]
    simp only [List.flatMap_def, List.map_map, Function.comp_def]
    congr 1
    apply List.map_congr_left
    intro sg hsg
    exact FindAllNames_segs sg (hok sg hsg)
  have herr := expandLoop_err env MixConfig.fieldRefs Indep_fieldRefs c
  rw [hnames] at herr
  refine ⟨fun name hn => ?_, fun hnone => ?_⟩
  · show (expandLoop env MixConfig.fieldRefs c).2 = _
    rw [herr, hn]
    rfl
  · have h2 : (expandLoop env MixConfig.fieldRefs c).2 = none := by
      rw [herr, hnone]
      rfl
    refine ⟨h2, ?_⟩
    have h3 := expandLoop_ok env MixConfig.fieldRefs Indep_fieldRefs c h2
    show MixConfig.fieldRefs.map (fun f => f.get (expandLoop env MixConfig.fieldRefs c).1) = _
    rw [h3]
    have h4 : MixConfig.fieldRefs.map (fun f => ExpandEnv env (f.get c)) =
        c.values.map (ExpandEnv env) := by
      simp [MixConfig.values, List.map_map, Function.comp_def]
    rw [h4, hv, List.map_map]
    apply List.map_congr_left
    intro sg hsg
    exact ExpandEnv_segs env sg (hok sg hsg)

/-- C5 (amended), at the document whose Cert is `$FOO/bin` and whose DNFConf is
`${BAR}.conf`, the other fields empty: undefined `FOO` is named in the error,
and with `FOO=/opt` and `BAR=yum` the fields become `/opt/bin` and `yum.conf`. -/
theorem expandEnv_segments_witness :
    (({ MixConfig.zero with Builder := ⟨"$FOO/bin", "", "", "${BAR}.conf"⟩ } :
        MixConfig).expandEnv [("BAR", "yum")]).2 =
      some "buildconf contains an undefined environment variable: FOO\n" ∧
    (({ MixConfig.zero with Builder := ⟨"$FOO/bin", "", "", "${BAR}.conf"⟩ } :
        MixConfig).expandEnv [("FOO", "/opt"), ("BAR", "yum")]).2 = none ∧
    (({ MixConfig.zero with Builder := ⟨"$FOO/bin", "", "", "${BAR}.conf"⟩ } :
        MixConfig).expandEnv [("FOO", "/opt"), ("BAR", "yum")]).1.values =
      ["/opt/bin", "", "", "yum.conf", "", "", "", "", "", "", "", "", "", ""] :=
  ⟨(expandEnv_segments [("BAR", "yum")]
      { MixConfig.zero with Builder := ⟨"$FOO/bin", "", "", "${BAR}.conf"⟩ }
      [[.var "FOO".data, .lit "/bin".data], [], [], [.braced "BAR".data, .lit ".conf".data],
        [], [], [], [], [], [], [], [], [], []]
      (by decide) (by decide)).1 "FOO" (by decide),
    ((expandEnv_segments [("FOO", "/opt"), ("BAR", "yum")]
      { MixConfig.zero with Builder := ⟨"$FOO/bin", "", "", "${BAR}.conf"⟩ }
      [[.var "FOO".data, .lit "/bin".data], [], [], [.braced "BAR".data, .lit ".conf".data],
        [], [], [], [], [], [], [], [], [], []]
      (by decide) (by decide)).2 (by decide)).1,
    ((expandEnv_segments [("FOO", "/opt"), ("BAR", "yum")]
      { MixConfig.zero with Builder := ⟨"$FOO/bin", "", "", "${BAR}.conf"⟩ }
      [[.var "FOO".data, .lit "/bin".data], [], [], [.braced "BAR".data, .lit ".conf".data],
        [], [], [], [], [], [], [], [], [], []]
      (by decide) (by decide)).2 (by decide)).2⟩

/-! ## C6, C7: format resolution -/

theorem matchFormatAt_ne_nil (s d : List Char) (h : matchFormatAt s = some d) : d ≠ [] := by
  unfold matchFormatAt at h
  by_cases h1 : "FORMAT".data <+: s
  · simp only [h1, if_true] at h
    by_cases h2 : List.takeWhile Char.isDigit
        (List.dropWhile (fun c => isSpace c || c == '"' || c == '=') (List.drop 6 s)) = []
    · simp [h2] at h
    · simp only [h2, if_false] at h
      split_ifs at h
      simp only [Option.some.injEq] at h
      rw [← h]
      exact h2
  · simp [h1] at h

theorem findFormat_ne_nil (s d : List Char) (h : findFormat s = some d) : d ≠ [] := by
  induction s with
  | nil => simp [findFormat] at h
  | cons c cs ih =>
    simp only [findFormat] at h
    cases hm : matchFormatAt (c :: cs) with
    | some d1 =>
      rw [hm] at h
      simp only [Option.some.injEq] at h
      rw [← h]
      exact matchFormatAt_ne_nil _ _ hm
    | none =>
      rw [hm] at h
      exact ih h

theorem digit_not_sep (c : Char) (h : c.isDigit = true) :
    (isSpace c || c == '"' || c == '=') = false := by
  by_contra hc
  simp only [isSpace, Bool.not_eq_false, Bool.or_eq_true, beq_iff_eq] at hc
  rcases hc with (((((rfl | rfl) | rfl) | rfl) | rfl) | rfl) | rfl <;>
    exact absurd h (by decide)

theorem quote_not_digit (c : Char) (h : (isSpace c || c == '"') = true) :
    c.isDigit = false := by
  simp only [isSpace, Bool.or_eq_true, beq_iff_eq] at h
  rcases h with ((((rfl | rfl) | rfl) | rfl) | rfl) | rfl <;> decide

/-- A text that begins with `FORMAT`, separators, digits, spaces or quotes and
a line feed matches the pattern right at its start, capturing the digits. -/
theorem matchFormatAt_line (sep v trail rest : List Char)
    (hsep : ∀ c ∈ sep, (isSpace c || c == '"' || c == '=') = true)
    (hv : v ≠ []) (hd : ∀ c ∈ v, c.isDigit = true)
    (htrail : ∀ c ∈ trail, (isSpace c || c == '"') = true) :
    matchFormatAt ("FORMAT".data ++ (sep ++ (v ++ (trail ++ '\n' :: rest)))) = some v := by
  have hpre : "FORMAT".data <+: "FORMAT".data ++ (sep ++ (v ++ (trail ++ '\n' :: rest))) :=
    List.prefix_append _ _
  have hdrop : ("FORMAT".data ++ (sep ++ (v ++ (trail ++ '\n' :: rest)))).drop 6 =
      sep ++ (v ++ (trail ++ '\n' :: rest)) := List.drop_left' (by decide)
  have hvhead : (v ++ (trail ++ '\n' :: rest)).head?.any
      (fun c => isSpace c || c == '"' || c == '=') = false := by
    cases v with
    | nil => exact absurd rfl hv
    | cons x xs => simpa using digit_not_sep x (hd x (List.mem_cons_self _ _))
  have h1 := (run_append (fun c => isSpace c || c == '"' || c == '=') sep
    (v ++ (trail ++ '\n' :: rest)) hsep hvhead).2
  have hthead : (trail ++ '\n' :: rest).head?.any Char.isDigit = false := by
    cases trail with
    | nil => simp
    | cons x xs => simpa using quote_not_digit x (htrail x (List.mem_cons_self _ _))
  have h2 := run_append Char.isDigit v (trail ++ '\n' :: rest) hd hthead
  have h3 : '\n' ∈ (trail ++ '\n' :: rest).takeWhile (fun c => isSpace c || c == '"') := by
    rw [List.takeWhile_append_of_pos htrail]
    have : (isSpace '\n' || '\n' == '"') = true := by decide
    apply List.mem_append_right
    rw [List.takeWhile_cons]
    simp only [this, if_true]
    exact List.mem_cons_self _ _
  unfold matchFormatAt
  simp only [hpre, if_true, hdrop, h1, h2.1, h2.2, hv, if_false, h3]

theorem getFormatFromConfig_found (fs : FS) (conf : String) (d : List Char)
    (hr : fs.ReadFile "builder.conf" = .ok conf) (hf : findFormat conf.data = some d) :
    MixState.getFormatFromConfig fs = (String.mk d, none) := by
  simp [MixState.getFormatFromConfig, hr, hf]

theorem loadDefaultFormat_found (state : MixState) (fs : FS) (conf : String) (d : List Char)
    (hr : fs.ReadFile "builder.conf" = .ok conf) (hf : findFormat conf.data = some d) :
    (state.loadDefaultFormat fs).Mix.Format = String.mk d ∧
      (state.loadDefaultFormat fs).formatSource = "builder.conf" := by
  have hne : String.mk d ≠ "" := (string_ne_empty _).2 (findFormat_ne_nil _ _ hf)
  simp only [MixState.loadDefaultFormat, getFormatFromConfig_found fs conf d hr hf]
  simp [hne]

theorem loadDefaultFormat_fallback (state : MixState) (fs : FS)
    (h : (MixState.getFormatFromConfig fs).2 ≠ none ∨ (MixState.getFormatFromConfig fs).1 = "") :
    (∀ c, fs.ReadFile DefaultFormatPath = .ok c →
      (state.loadDefaultFormat fs).Mix.Format = c ∧
        (state.loadDefaultFormat fs).formatSource = DefaultFormatPath) ∧
    (∀ e, fs.ReadFile DefaultFormatPath = .error e →
      (state.loadDefaultFormat fs).Mix.Format = "1" ∧
        (state.loadDefaultFormat fs).formatSource = "Mixer internal value") := by
  have hcond : ¬ ((MixState.getFormatFromConfig fs).2 = none ∧
      (MixState.getFormatFromConfig fs).1 ≠ "") := by
    rintro ⟨h1, h2⟩
    rcases h with h | h
    · exact h h1
    · exact h2 h
  constructor
  · intro c hc
    simp [MixState.loadDefaultFormat, hcond, hc]
  · intro e he
    simp [MixState.loadDefaultFormat, hcond, he]

theorem getFormatFromConfig_nothing (fs : FS)
    (h : (∃ e, fs.ReadFile "builder.conf" = .error e) ∨
      (∃ conf, fs.ReadFile "builder.conf" = .ok conf ∧ findFormat conf.data = none)) :
    (MixState.getFormatFromConfig fs).2 ≠ none ∨ (MixState.getFormatFromConfig fs).1 = "" := by
  rcases h with ⟨e, he⟩ | ⟨conf, hc, hn⟩
  · left
    simp [MixState.getFormatFromConfig, he]
  · right
    simp [MixState.getFormatFromConfig, hc, hn]

/-- C6 (counterexample): with a readable `builder.conf` holding exactly
`FORMAT=3` (no line feed after the value) and a system default file holding
`27`, `loadDefaultFormat` takes the format from the system default file. -/
theorem loadDefaultFormat_no_newline :
    (MixState.zero.loadDefaultFormat
        ⟨[("builder.conf", ⟨"FORMAT=3", true, true⟩),
          (DefaultFormatPath, ⟨"27", true, false⟩)], []⟩).Mix.Format = "27" ∧
    (MixState.zero.loadDefaultFormat
        ⟨[("builder.conf", ⟨"FORMAT=3", true, true⟩),
          (DefaultFormatPath, ⟨"27", true, false⟩)], []⟩).formatSource = DefaultFormatPath ∧
    ("27" : String) ≠ "3" := by
  decide

/-- C6 (amended): format resolution follows the priority order config file,
system default file, hardcoded literal. Whenever `builder.conf` is readable and
its text matches the pattern `FORMAT[\s"=]*([0-9]+)[\s"]*\n` somewhere, Mix.Format
is the run of digits of the leftmost match and formatSource is `builder.conf`,
whatever the system default file is; this is so in particular when the text
begins with `FORMAT`, separators (spaces, quotes, equals signs), digits `v`,
spaces or quotes and a line feed, where the format is `v`. Otherwise, if the
system default file is readable its contents are used, and otherwise
Mix.Format is `1`. -/
theorem loadDefaultFormat_priority (state : MixState) (fs : FS) :
    (∀ conf d, fs.ReadFile "builder.conf" = .ok conf → findFormat conf.data = some d →
      (state.loadDefaultFormat fs).Mix.Format = String.mk d ∧
        (state.loadDefaultFormat fs).formatSource = "builder.conf") ∧
    (∀ conf sep v trail rest, fs.ReadFile "builder.conf" = .ok conf →
      conf.data = "FORMAT".data ++ (sep ++ (v ++ (trail ++ '\n' :: rest))) →
      (∀ c ∈ sep, (isSpace c || c == '"' || c == '=') = true) →
      v ≠ [] → (∀ c ∈ v, c.isDigit = true) →
      (∀ c ∈ trail, (isSpace c || c == '"') = true) →
      (state.loadDefaultFormat fs).Mix.Format = String.mk v ∧
        (state.loadDefaultFormat fs).formatSource = "builder.conf") ∧
    (((∃ e, fs.ReadFile "builder.conf" = .error e) ∨
        (∃ conf, fs.ReadFile "builder.conf" = .ok conf ∧ findFormat conf.data = none)) →
      (∀ c, fs.ReadFile DefaultFormatPath = .ok c →
        (state.loadDefaultFormat fs).Mix.Format = c ∧
          (state.loadDefaultFormat fs).formatSource = DefaultFormatPath) ∧
      (∀ e, fs.ReadFile DefaultFormatPath = .error e →
        (state.loadDefaultFormat fs).Mix.Format = "1" ∧
          (state.loadDefaultFormat fs).formatSource = "Mixer internal value")) := by
  refine ⟨fun conf d hr hf => loadDefaultFormat_found state fs conf d hr hf, ?_, ?_⟩
  · intro conf sep v trail rest hr hconf hsep hv hd htrail
    apply loadDefaultFormat_found state fs conf v hr
    rw [hconf]
    have hm := matchFormatAt_line sep v trail rest hsep hv hd htrail
    have hshape : "FORMAT".data ++ (sep ++ (v ++ (trail ++ '\n' :: rest))) =
        'F' :: ("ORMAT".data ++ (sep ++ (v ++ (trail ++ '\n' :: rest)))) := rfl
    rw [hshape] at hm ⊢
    simp only [findFormat, hm]
  · intro h
    exact loadDefaultFormat_fallback state fs (getFormatFromConfig_nothing fs h)

/-- C6 (amended), at a `builder.conf` holding `FORMAT=3` and a line feed next to
a system default file holding `27`: the format is `3`; and without
`builder.conf` it is `27`. -/
theorem loadDefaultFormat_priority_witness :
    ((MixState.zero.loadDefaultFormat
        ⟨[("builder.conf", ⟨"FORMAT=3\n", true, true⟩),
          (DefaultFormatPath, ⟨"27", true, false⟩)], []⟩).Mix.Format = "3" ∧
      (MixState.zero.loadDefaultFormat
        ⟨[("builder.conf", ⟨"FORMAT=3\n", true, true⟩),
          (DefaultFormatPath, ⟨"27", true, false⟩)], []⟩).formatSource = "builder.conf") ∧
    ((MixState.zero.loadDefaultFormat
        ⟨[(DefaultFormatPath, ⟨"27", true, false⟩)], []⟩).Mix.Format = "27" ∧
      (MixState.zero.loadDefaultFormat
        ⟨[(DefaultFormatPath, ⟨"27", true, false⟩)], []⟩).formatSource = DefaultFormatPath) :=
  ⟨(loadDefaultFormat_priority MixState.zero
      ⟨[("builder.conf", ⟨"FORMAT=3\n", true, true⟩),
        (DefaultFormatPath, ⟨"27", true, false⟩)], []⟩).2.1
      "FORMAT=3\n" ['='] ['3'] [] [] (by rfl) (by decide) (by decide) (by decide)
      (by decide) (by decide),
    ((loadDefaultFormat_priority MixState.zero
      ⟨[(DefaultFormatPath, ⟨"27", true, false⟩)], []⟩).2.2
      (Or.inl ⟨.ErrNotExist, by rfl⟩)).1 "27" (by rfl)⟩

/-- C7 (counterexample): when the format is taken from a system default file
holding `27` and a line feed, Mix.Format is `27` with the line feed, not `27`. -/
theorem loadDefaultFormat_untrimmed :
    (MixState.zero.loadDefaultFormat
        ⟨[(DefaultFormatPath, ⟨"27\n", true, false⟩)], []⟩).formatSource = DefaultFormatPath ∧
    (MixState.zero.loadDefaultFormat
        ⟨[(DefaultFormatPath, ⟨"27\n", true, false⟩)], []⟩).Mix.Format = "27\n" ∧
    (MixState.zero.loadDefaultFormat
        ⟨[(DefaultFormatPath, ⟨"27\n", true, false⟩)], []⟩).Mix.Format ≠ "27" := by
  decide

/-- C7 (amended): when the format is taken from the system default file (the
config file gave none and the system default file is readable), Mix.Format is
the entire contents of the file as they are, whitespace included. -/
theorem loadDefaultFormat_system_verbatim (state : MixState) (fs : FS) (c : String)
    (hconf : (MixState.getFormatFromConfig fs).2 ≠ none ∨
      (MixState.getFormatFromConfig fs).1 = "")
    (hsys : fs.ReadFile DefaultFormatPath = .ok c) :
    (state.loadDefaultFormat fs).Mix.Format = c ∧
      (state.loadDefaultFormat fs).formatSource = DefaultFormatPath :=
  (loadDefaultFormat_fallback state fs hconf).1 c hsys

/-- C7 (amended), at a system default file holding `27` and a line feed. -/
theorem loadDefaultFormat_system_verbatim_witness :
    (MixState.zero.loadDefaultFormat
        ⟨[(DefaultFormatPath, ⟨"27\n", true, false⟩)], []⟩).Mix.Format = "27\n" ∧
    (MixState.zero.loadDefaultFormat
        ⟨[(DefaultFormatPath, ⟨"27\n", true, false⟩)], []⟩).formatSource = DefaultFormatPath :=
  loadDefaultFormat_system_verbatim MixState.zero
    ⟨[(DefaultFormatPath, ⟨"27\n", true, false⟩)], []⟩ "27\n" (by decide) (by rfl)

/-! ## C8: first run of `MixState.Load` -/

/-- C8 (the code at the failing input): the state file `mixer.state` exists,
holds format 25 and offline mode, and may be written but not read. `os.Open`
fails with a permission error, not with "file not found"; `Load` nevertheless
saves the defaulted state over the file and returns no error. -/
theorem MixState_Load_permission_denied_overwrites :
    FS.Open ⟨[("mixer.state",
        ⟨"#VERSION 1.1\n\n[Mix]\n  FORMAT = \"25\"\n  OFFLINE = \"true\"\n", false, true⟩)], []⟩
      "mixer.state" = .error .ErrPermission ∧
    (MixState.Load
      ⟨fun _ _ _ _ => ⟨"1.1", true, none⟩,
        fun st => .ok ("[Mix]\n  FORMAT = \"" ++ st.Mix.Format ++ "\"\n  OFFLINE = \"" ++
          st.Mix.Offline ++ "\"\n"),
        fun _ _ st => (st, none)⟩
      MixState.zero ""
      ⟨[("mixer.state",
        ⟨"#VERSION 1.1\n\n[Mix]\n  FORMAT = \"25\"\n  OFFLINE = \"true\"\n", false, true⟩)],
        []⟩).err = none ∧
    (MixState.Load
      ⟨fun _ _ _ _ => ⟨"1.1", true, none⟩,
        fun st => .ok ("[Mix]\n  FORMAT = \"" ++ st.Mix.Format ++ "\"\n  OFFLINE = \"" ++
          st.Mix.Offline ++ "\"\n"),
        fun _ _ st => (st, none)⟩
      MixState.zero ""
      ⟨[("mixer.state",
        ⟨"#VERSION 1.1\n\n[Mix]\n  FORMAT = \"25\"\n  OFFLINE = \"true\"\n", false, true⟩)],
        []⟩).fs.lookup "mixer.state" =
      some ⟨"#VERSION 1.1\n\n[Mix]\n  FORMAT = \"1\"\n  OFFLINE = \"false\"\n", false, true⟩ := by
  refine ⟨by rfl, by decide, by decide⟩

/-! ## C9: the version header -/

theorem lookup_put (fs : FS) (path : String) (f : File) : (fs.put path f).lookup path = some f := by
  simp [FS.lookup, FS.put]

theorem WriteFile_ok (fs fs1 : FS) (path bytes : String)
    (h : fs.WriteFile path bytes = (fs1, none)) :
    ∃ f, fs1.lookup path = some f ∧ f.content = bytes := by
  unfold FS.WriteFile at h
  split at h
  · split_ifs at h
    · obtain ⟨rfl, -⟩ := Prod.mk.inj h
      exact ⟨_, lookup_put _ _ _, rfl⟩
    · simp at h
  · split_ifs at h
    · simp at h
    · obtain ⟨rfl, -⟩ := Prod.mk.inj h
      exact ⟨_, lookup_put _ _ _, rfl⟩

/-- C9: whenever `MixConfig.Save` or `MixState.Save` returns without error, the
file it wrote holds exactly the line `#VERSION <v>`, with `<v>` the version of
the document, one empty line, and then the body the encoder produced for the
document: nothing precedes the header. -/
theorem Save_writes_header (encC : MixConfig → Except String String)
    (encS : MixState → Except String String) (config : MixConfig) (state : MixState) (fs : FS) :
    ((MixConfig.Save encC config fs).2 = none →
      ∃ body f, encC config = .ok body ∧
        (MixConfig.Save encC config fs).1.lookup config.GetFilename = some f ∧
        f.content = "#VERSION " ++ config.GetVersion ++ "\n\n" ++ body) ∧
    ((MixState.Save encS state fs).2 = none →
      ∃ body f, encS state = .ok body ∧
        (MixState.Save encS state fs).1.lookup state.GetFilename = some f ∧
        f.content = "#VERSION " ++ state.GetVersion ++ "\n\n" ++ body) := by
  constructor
  · intro h
    unfold MixConfig.Save at h ⊢
    cases he : encC config with
    | error e => simp [he] at h
    | ok body =>
      simp only [he] at h ⊢
      cases hw : fs.WriteFile config.filename (saveBuffer config.version body) with
      | mk fs1 err =>
        cases err with
        | some e => simp [hw] at h
        | none =>
          obtain ⟨f, hf1, hf2⟩ := WriteFile_ok _ _ _ _ hw
          exact ⟨body, f, rfl, hf1, hf2⟩
  · intro h
    unfold MixState.Save at h ⊢
    cases he : encS state with
    | error e => simp [he] at h
    | ok body =>
      simp only [he] at h ⊢
      cases hw : fs.WriteFile state.filename (saveBuffer state.version body) with
      | mk fs1 err =>
        cases err with
        | some e => simp [hw] at h
        | none =>
          obtain ⟨f, hf1, hf2⟩ := WriteFile_ok _ _ _ _ hw
          exact ⟨body, f, rfl, hf1, hf2⟩

/-- C9, at the default config for `/mix` and the default state, saved into an
empty file system with an encoder that writes one section header. -/
theorem Save_writes_header_witness :
    (∃ body f, (fun _ => Except.ok "[Builder]\n" : MixConfig → Except String String)
        (MixConfig.LoadDefaultsForPath "1.0" MixConfig.zero "/mix") = .ok body ∧
      (MixConfig.Save (fun _ => .ok "[Builder]\n")
        (MixConfig.LoadDefaultsForPath "1.0" MixConfig.zero "/mix") ⟨[], []⟩).1.lookup
        (MixConfig.LoadDefaultsForPath "1.0" MixConfig.zero "/mix").GetFilename = some f ∧
      f.content = "#VERSION " ++
        (MixConfig.LoadDefaultsForPath "1.0" MixConfig.zero "/mix").GetVersion ++ "\n\n" ++
          body) ∧
    (∃ body f, (fun _ => Except.ok "[Mix]\n" : MixState → Except String String)
        (MixState.zero.LoadDefaults ⟨[], []⟩) = .ok body ∧
      (MixState.Save (fun _ => .ok "[Mix]\n")
        (MixState.zero.LoadDefaults ⟨[], []⟩) ⟨[], []⟩).1.lookup
        (MixState.zero.LoadDefaults ⟨[], []⟩).GetFilename = some f ∧
      f.content =
        "#VERSION " ++ (MixState.zero.LoadDefaults ⟨[], []⟩).GetVersion ++ "\n\n" ++ body) :=
  ⟨(Save_writes_header (fun _ => .ok "[Builder]\n") (fun _ => .ok "[Mix]\n")
      (MixConfig.LoadDefaultsForPath "1.0" MixConfig.zero "/mix")
      (MixState.zero.LoadDefaults ⟨[], []⟩) ⟨[], []⟩).1 (by decide),
    (Save_writes_header (fun _ => .ok "[Builder]\n") (fun _ => .ok "[Mix]\n")
      (MixConfig.LoadDefaultsForPath "1.0" MixConfig.zero "/mix")
      (MixState.zero.LoadDefaults ⟨[], []⟩) ⟨[], []⟩).2 (by decide)⟩

/-! ## C10: loading a current-version file -/

theorem loadTail_frame (x : Externals) (env : Env) (config : MixConfig) (fs : FS)
    (trace : List Call) (h : Call.convert ∉ trace) :
    (MixConfig.loadTail x env config fs trace).fs = fs ∧
      Call.convert ∉ (MixConfig.loadTail x env config fs trace).trace := by
  unfold MixConfig.loadTail
  split
  · exact ⟨rfl, by simpa using h⟩
  · split
    · exact ⟨rfl, by simpa using h⟩
    · exact ⟨rfl, by simpa using h⟩

theorem loadTail_trace (x : Externals) (env : Env) (config : MixConfig) (fs : FS)
    (trace : List Call) (h : Call.convert ∈ trace) :
    Call.convert ∈ (MixConfig.loadTail x env config fs trace).trace := by
  unfold MixConfig.loadTail
  split
  · simp [h]
  · split
    · simp [h]
    · simp [h]

theorem Load_error (x : Externals) (env : Env) (cwd : Except String String)
    (config c0 : MixConfig) (filename : String) (fs : FS)
    (hinit : config.InitConfigPath cwd filename = (c0, none)) (e : String)
    (he : (x.ParseVersion fs c0.filename c0.version x.CurrentConfigVersion).err = some e) :
    MixConfig.Load x env cwd config filename fs =
      ⟨{ c0 with version := (x.ParseVersion fs c0.filename c0.version
          x.CurrentConfigVersion).version }, fs, [], some e,
        [Call.InitConfigPath, Call.ParseVersion]⟩ := by
  unfold MixConfig.Load
  simp only [hinit, he]

theorem Load_current (x : Externals) (env : Env) (cwd : Except String String)
    (config c0 : MixConfig) (filename : String) (fs : FS)
    (hinit : config.InitConfigPath cwd filename = (c0, none))
    (he : (x.ParseVersion fs c0.filename c0.version x.CurrentConfigVersion).err = none)
    (ho : (x.ParseVersion fs c0.filename c0.version x.CurrentConfigVersion).ok = true) :
    MixConfig.Load x env cwd config filename fs =
      MixConfig.loadTail x env
        { c0 with version := (x.ParseVersion fs c0.filename c0.version
          x.CurrentConfigVersion).version } fs [Call.InitConfigPath, Call.ParseVersion] := by
  unfold MixConfig.Load
  simp only [hinit, he, ho, if_true]

theorem Load_stale (x : Externals) (env : Env) (cwd : Except String String)
    (config c0 : MixConfig) (filename : String) (fs : FS)
    (hinit : config.InitConfigPath cwd filename = (c0, none))
    (he : (x.ParseVersion fs c0.filename c0.version x.CurrentConfigVersion).err = none)
    (ho : (x.ParseVersion fs c0.filename c0.version x.CurrentConfigVersion).ok = false) :
    Call.convert ∈ (MixConfig.Load x env cwd config filename fs).trace := by
  unfold MixConfig.Load
  simp only [hinit, he, ho, Bool.false_eq_true, if_false]
  split
  · simp
  · exact loadTail_trace _ _ _ _ _ (by simp)

theorem loadTail_fs (x : Externals) (env : Env) (config : MixConfig) (fs : FS)
    (trace : List Call) : (MixConfig.loadTail x env config fs trace).fs = fs := by
  unfold MixConfig.loadTail
  split
  · rfl
  · split <;> rfl

theorem Load_stale_eq (x : Externals) (env : Env) (cwd : Except String String)
    (config c0 : MixConfig) (filename : String) (fs : FS)
    (hinit : config.InitConfigPath cwd filename = (c0, none))
    (he : (x.ParseVersion fs c0.filename c0.version x.CurrentConfigVersion).err = none)
    (ho : (x.ParseVersion fs c0.filename c0.version x.CurrentConfigVersion).ok = false) :
    MixConfig.Load x env cwd config filename fs =
      match x.convert { c0 with version := (x.ParseVersion fs c0.filename c0.version
          x.CurrentConfigVersion).version } fs with
      | (c2, fs2, some e) =>
        ⟨c2, fs2, [], some e, [Call.InitConfigPath, Call.ParseVersion, Call.convert]⟩
      | (c2, fs2, none) =>
        MixConfig.loadTail x env c2 fs2
          [Call.InitConfigPath, Call.ParseVersion, Call.convert] := by
  unfold MixConfig.Load
  simp only [hinit, he, ho, Bool.false_eq_true, if_false]

/-- C10: once `InitConfigPath` has set the file name, what `Load` does is
decided by `ParseVersion`. When it reports the file current without error,
`Load` does not call `convert` and leaves the files as they are (it calls
`Save` nowhere): its whole result is the one of parse, expansion and
validation on the document as it is, the same whatever `convert` would do.
`convert` is called exactly when `ParseVersion` reports not-current without
error: the result of `Load` is then made from what `convert` returns, its
error ending the load and its files being the files `Load` leaves. An error
of `ParseVersion` is returned at once: neither `parse` nor `expandEnv` nor
`validate` is called, the files are as they were, and the result is the same
whatever `convert`, the decoder and the environment are. -/
theorem Load_current_no_convert (x : Externals) (env : Env) (cwd : Except String String)
    (config c0 : MixConfig) (filename : String) (fs : FS)
    (hinit : config.InitConfigPath cwd filename = (c0, none)) :
    ((x.ParseVersion fs c0.filename c0.version x.CurrentConfigVersion).err = none →
      (x.ParseVersion fs c0.filename c0.version x.CurrentConfigVersion).ok = true →
      Call.convert ∉ (MixConfig.Load x env cwd config filename fs).trace ∧
        (MixConfig.Load x env cwd config filename fs).fs = fs) ∧
    (Call.convert ∈ (MixConfig.Load x env cwd config filename fs).trace ↔
      ((x.ParseVersion fs c0.filename c0.version x.CurrentConfigVersion).err = none ∧
        (x.ParseVersion fs c0.filename c0.version x.CurrentConfigVersion).ok = false)) ∧
    (∀ e, (x.ParseVersion fs c0.filename c0.version x.CurrentConfigVersion).err = some e →
      (MixConfig.Load x env cwd config filename fs).err = some e ∧
        (MixConfig.Load x env cwd config filename fs).trace =
          [Call.InitConfigPath, Call.ParseVersion] ∧
        (MixConfig.Load x env cwd config filename fs).fs = fs) ∧
    ((x.ParseVersion fs c0.filename c0.version x.CurrentConfigVersion).err = none →
      (x.ParseVersion fs c0.filename c0.version x.CurrentConfigVersion).ok = true →
      MixConfig.Load x env cwd config filename fs =
          MixConfig.loadTail x env
            (c0.SetVersion (x.ParseVersion fs c0.filename c0.version
              x.CurrentConfigVersion).version) fs
            [Call.InitConfigPath, Call.ParseVersion] ∧
        ∀ cv, MixConfig.Load { x with convert := cv } env cwd config filename fs =
          MixConfig.Load x env cwd config filename fs) ∧
    ((x.ParseVersion fs c0.filename c0.version x.CurrentConfigVersion).err = none →
      (x.ParseVersion fs c0.filename c0.version x.CurrentConfigVersion).ok = false →
      MixConfig.Load x env cwd config filename fs =
          (match x.convert (c0.SetVersion (x.ParseVersion fs c0.filename c0.version
              x.CurrentConfigVersion).version) fs with
            | (c2, fs2, some e) =>
              ⟨c2, fs2, [], some e, [Call.InitConfigPath, Call.ParseVersion, Call.convert]⟩
            | (c2, fs2, none) =>
              MixConfig.loadTail x env c2 fs2
                [Call.InitConfigPath, Call.ParseVersion, Call.convert]) ∧
        (MixConfig.Load x env cwd config filename fs).fs =
          (x.convert (c0.SetVersion (x.ParseVersion fs c0.filename c0.version
            x.CurrentConfigVersion).version) fs).2.1 ∧
        ∀ e, (x.convert (c0.SetVersion (x.ParseVersion fs c0.filename c0.version
            x.CurrentConfigVersion).version) fs).2.2 = some e →
          (MixConfig.Load x env cwd config filename fs).err = some e ∧
            (MixConfig.Load x env cwd config filename fs).config =
              (x.convert (c0.SetVersion (x.ParseVersion fs c0.filename c0.version
                x.CurrentConfigVersion).version) fs).1) ∧
    (∀ e, (x.ParseVersion fs c0.filename c0.version x.CurrentConfigVersion).err = some e →
      MixConfig.Load x env cwd config filename fs =
          ⟨c0.SetVersion (x.ParseVersion fs c0.filename c0.version
            x.CurrentConfigVersion).version, fs, [], some e,
            [Call.InitConfigPath, Call.ParseVersion]⟩ ∧
        ∀ cv dec env1,
          MixConfig.Load { x with convert := cv, decode := dec } env1 cwd config filename fs =
            MixConfig.Load x env cwd config filename fs) := by
  refine ⟨fun he ho => ?_, ?_, fun e he => ?_, fun he ho => ⟨?_, fun cv => ?_⟩,
    fun he ho => ?_, fun e he => ⟨?_, fun cv dec env1 => ?_⟩⟩
  · rw [Load_current x env cwd config c0 filename fs hinit he ho]
    have hf := loadTail_frame x env
      { c0 with version := (x.ParseVersion fs c0.filename c0.version
        x.CurrentConfigVersion).version } fs [Call.InitConfigPath, Call.ParseVersion]
      (by decide)
    exact ⟨hf.2, hf.1⟩
  · cases he : (x.ParseVersion fs c0.filename c0.version x.CurrentConfigVersion).err with
    | some e =>
      rw [Load_error x env cwd config c0 filename fs hinit e he]
      simp
    | none =>
      cases ho : (x.ParseVersion fs c0.filename c0.version x.CurrentConfigVersion).ok with
      | true =>
        rw [Load_current x env cwd config c0 filename fs hinit he ho]
        have hf := loadTail_frame x env
          { c0 with version := (x.ParseVersion fs c0.filename c0.version
            x.CurrentConfigVersion).version } fs [Call.InitConfigPath, Call.ParseVersion]
          (by decide)
        simpa using hf.2
      | false =>
        have := Load_stale x env cwd config c0 filename fs hinit he ho
        simpa using this
  · rw [Load_error x env cwd config c0 filename fs hinit e he]
    exact ⟨rfl, rfl, rfl⟩
  · exact Load_current x env cwd config c0 filename fs hinit he ho
  · rw [Load_current x env cwd config c0 filename fs hinit he ho,
      Load_current { x with convert := cv } env cwd config c0 filename fs hinit he ho]
    rfl
  · have heq := Load_stale_eq x env cwd config c0 filename fs hinit he ho
    refine ⟨heq, ?_, ?_⟩
    · rw [heq]
      simp only [MixConfig.SetVersion]
      split
      · rename_i hc
        rw [hc]
      · rename_i hc
        rw [hc, loadTail_fs]
    · intro e hce
      rw [heq]
      simp only [MixConfig.SetVersion] at hce ⊢
      split
      · rename_i c2 fs2 e2 hc
        rw [hc] at hce ⊢
        simp only [Option.some.injEq] at hce
        exact ⟨by rw [hce], rfl⟩
      · rename_i c2 fs2 hc
        rw [hc] at hce
        simp at hce
  · exact Load_error x env cwd config c0 filename fs hinit e he
  · rw [Load_error x env cwd config c0 filename fs hinit e he,
      Load_error { x with convert := cv, decode := dec } env1 cwd config c0 filename fs hinit e he]

/-- C10, at a file in `/mix`. When `ParseVersion` reports it current, the trace
of `Load` holds no `convert` and the files are unchanged, although `convert`
would empty the file system. When `ParseVersion` reports it not current, the
files `Load` leaves are the empty file system `convert` returns. -/
theorem Load_current_no_convert_witness :
    (Call.convert ∉ (MixConfig.Load
        ⟨"1.0", fun _ _ _ _ => ⟨"1.0", true, none⟩, fun c _ => (c, ⟨[], []⟩, none),
          fun _ _ c => (c, none)⟩
        [] (.ok "/mix") (MixConfig.LoadDefaultsForPath "1.0" MixConfig.zero "/mix")
        "/mix/builder.conf"
        ⟨[("/mix/builder.conf", ⟨"#VERSION 1.0\n\n[Builder]\n", true, true⟩)], []⟩).trace ∧
      (MixConfig.Load
        ⟨"1.0", fun _ _ _ _ => ⟨"1.0", true, none⟩, fun c _ => (c, ⟨[], []⟩, none),
          fun _ _ c => (c, none)⟩
        [] (.ok "/mix") (MixConfig.LoadDefaultsForPath "1.0" MixConfig.zero "/mix")
        "/mix/builder.conf"
        ⟨[("/mix/builder.conf", ⟨"#VERSION 1.0\n\n[Builder]\n", true, true⟩)], []⟩).fs =
      ⟨[("/mix/builder.conf", ⟨"#VERSION 1.0\n\n[Builder]\n", true, true⟩)], []⟩) ∧
    (MixConfig.Load
        ⟨"1.0", fun _ _ _ _ => ⟨"0.0", false, none⟩, fun c _ => (c, ⟨[], []⟩, none),
          fun _ _ c => (c, none)⟩
        [] (.ok "/mix") (MixConfig.LoadDefaultsForPath "1.0" MixConfig.zero "/mix")
        "/mix/builder.conf"
        ⟨[("/mix/builder.conf", ⟨"[Builder]\n", true, true⟩)], []⟩).fs = ⟨[], []⟩ :=
  ⟨(Load_current_no_convert
      ⟨"1.0", fun _ _ _ _ => ⟨"1.0", true, none⟩, fun c _ => (c, ⟨[], []⟩, none),
        fun _ _ c => (c, none)⟩
      [] (.ok "/mix") (MixConfig.LoadDefaultsForPath "1.0" MixConfig.zero "/mix")
      { MixConfig.LoadDefaultsForPath "1.0" MixConfig.zero "/mix" with
        filename := "/mix/builder.conf" }
      "/mix/builder.conf"
      ⟨[("/mix/builder.conf", ⟨"#VERSION 1.0\n\n[Builder]\n", true, true⟩)], []⟩
      (by decide)).1 rfl rfl,
    ((Load_current_no_convert
      ⟨"1.0", fun _ _ _ _ => ⟨"0.0", false, none⟩, fun c _ => (c, ⟨[], []⟩, none),
        fun _ _ c => (c, none)⟩
      [] (.ok "/mix") (MixConfig.LoadDefaultsForPath "1.0" MixConfig.zero "/mix")
      { MixConfig.LoadDefaultsForPath "1.0" MixConfig.zero "/mix" with
        filename := "/mix/builder.conf" }
      "/mix/builder.conf"
      ⟨[("/mix/builder.conf", ⟨"[Builder]\n", true, true⟩)], []⟩
      (by decide)).2.2.2.2.1 rfl rfl).2.1⟩

/-! ## C11: the names looked up by the substitution -/

theorem expandNamesAux_nil (fuel : Nat) : expandNamesAux fuel [] = [] := by
  cases fuel <;> rfl

/-- The expansion depends on the mapping through the names looked up only. -/
theorem expandAux_congr (m1 m2 : String → String) (fuel : Nat) : ∀ s : List Char,
    (∀ n ∈ expandNamesAux fuel s, m1 (String.mk n) = m2 (String.mk n)) →
      expandAux m1 fuel s = expandAux m2 fuel s := by
  induction fuel with
  | zero => intro s _; rfl
  | succ k ih =>
    intro s h
    cases s with
    | nil => rfl
    | cons c rest =>
      simp only [expandNamesAux] at h
      simp only [expandAux]
      by_cases hc : c = '$' ∧ rest ≠ []
      · simp only [hc, and_self, if_true, ne_eq, not_false_eq_true] at h ⊢
        rw [ih _ (fun n hn => h n (List.mem_append_right _ hn))]
        by_cases hn : (getShellName rest).1 = []
        · simp only [hn, if_true]
        · simp only [hn, if_false] at h ⊢
          rw [h _ (List.mem_append_left _ (List.mem_singleton_self _))]
      · simp only [hc, if_false] at h ⊢
        rw [ih _ h]

theorem expandNamesAux_lit (t R : List Char) (ht : '$' ∉ t) (fuel : Nat)
    (hf : (t ++ R).length ≤ fuel) :
    ∃ fuel1, R.length ≤ fuel1 ∧ expandNamesAux fuel (t ++ R) = expandNamesAux fuel1 R := by
  induction t generalizing fuel with
  | nil => exact ⟨fuel, by simpa using hf, rfl⟩
  | cons c cs ih =>
    have hc : c ≠ '$' := fun e => ht (by simp [e])
    have hcs : '$' ∉ cs := fun e => ht (by simp [e])
    cases fuel with
    | zero => simp at hf
    | succ f =>
      obtain ⟨f1, h1, h2⟩ := ih hcs f (by simpa using hf)
      refine ⟨f1, h1, ?_⟩
      simp only [List.cons_append]
      rw [expandNamesAux]
      simp [hc, h2]

/-- In a value made of well-formed pieces the names looked up by the expansion
are the names of its references. -/
theorem expandNames_segs (segs : List Seg) (h : segsOK segs = true) :
    ∀ fuel, (renderSegs segs).length ≤ fuel →
      (expandNamesAux fuel (renderSegs segs)).map String.mk = segNames segs := by
  induction segs with
  | nil =>
    intro fuel _
    simp [renderSegs, expandNamesAux_nil, segNames]
  | cons sg r ih =>
    intro fuel hf
    rw [renderSegs_cons] at hf ⊢
    cases sg with
    | lit t =>
      obtain ⟨ht, hr⟩ := segsOK_lit t r h
      obtain ⟨f1, h1, h2⟩ := expandNamesAux_lit t (renderSegs r) ht fuel hf
      simp only [Seg.render, h2, segNames]
      exact ih hr f1 h1
    | var n =>
      obtain ⟨hn, hw, hd, hR, hr⟩ := segsOK_var n r h
      cases fuel with
      | zero => simp [Seg.render] at hf
      | succ f =>
        simp only [Seg.render, List.cons_append, List.length_cons, List.length_append] at hf
        simp only [Seg.render, List.cons_append]
        rw [expandNamesAux, getShellName_var n (renderSegs r) hn hw hd hR]
        simp only [segNames, hn, if_false, List.drop_left]
        have := ih hr f (by omega)
        simp [hn, this]
    | braced n =>
      obtain ⟨hn, hw, hr⟩ := segsOK_braced n r h
      cases fuel with
      | zero => simp [Seg.render] at hf
      | succ f =>
        simp only [Seg.render, List.cons_append, List.length_cons, List.length_append,
          List.append_assoc, List.singleton_append, List.nil_append, List.length_nil] at hf
        simp only [Seg.render, List.cons_append, List.append_assoc, List.singleton_append,
          List.nil_append]
        rw [expandNamesAux, getShellName_braced n (renderSegs r) hn hw]
        have hdrop : List.drop (n.length + 2) ('{' :: (n ++ '}' :: renderSegs r)) =
            renderSegs r := by
          have : n.length + 2 = (('{' :: n) ++ ['}']).length := by simp
          rw [this]
          have h2 : ('{' :: (n ++ '}' :: renderSegs r)) =
              (('{' :: n) ++ ['}']) ++ renderSegs r := by simp
          rw [h2, List.drop_left]
        simp only [segNames, hn, if_false, hdrop]
        have := ih hr f (by omega)
        simp [this]

theorem ExpandLookups_segs (segs : List Seg) (h : segsOK segs = true) :
    ExpandLookups (String.mk (renderSegs segs)) = segNames segs := by
  show (expandNamesAux (renderSegs segs).length (renderSegs segs)).map String.mk = segNames segs
  exact expandNames_segs segs h _ (Nat.le_refl _)

/-- C11 (counterexample): with only `1abc` defined, the one name the pattern
matches in the value `$1abc` is `1abc`, which is defined, but `os.ExpandEnv`
looks up `1`, which is not, and substitutes the empty string for it. In the
same way, with only `FOO` defined, the check passes for `$$FOO` and
`os.ExpandEnv` looks up the undefined `$`. -/
theorem expandEnv_lookup_undefined :
    ((∀ n ∈ FindAllNames "$1abc", (LookupEnv [("1abc", "/opt")] n).isSome = true) ∧
      ¬ (∀ n ∈ ExpandLookups "$1abc", (LookupEnv [("1abc", "/opt")] n).isSome = true) ∧
      ExpandLookups "$1abc" = ["1"] ∧
      ExpandEnv [("1abc", "/opt")] "$1abc" = "abc") ∧
    ((∀ n ∈ FindAllNames "$$FOO", (LookupEnv [("FOO", "/opt")] n).isSome = true) ∧
      ¬ (∀ n ∈ ExpandLookups "$$FOO", (LookupEnv [("FOO", "/opt")] n).isSome = true) ∧
      ExpandLookups "$$FOO" = ["$"] ∧
      ExpandEnv [("FOO", "/opt")] "$$FOO" = "FOO") := by
  decide

/-- C11 (amended): for a value made of literal text without `$` and of
references `$NAME` and `${NAME}`, NAME a non-empty run of word characters
which, in the form without braces, does not start with a digit and is not
followed by a word character, the names `os.ExpandEnv` looks up are exactly
the names the pattern of the check matches; so when every matched name is
defined, every name looked up is defined and nothing is replaced by the empty
string of an undefined variable. -/
theorem expandEnv_lookups_defined (env : Env) (segs : List Seg) (hok : segsOK segs = true)
    (hdef : ∀ n ∈ FindAllNames (String.mk (renderSegs segs)), (LookupEnv env n).isSome = true) :
    ExpandLookups (String.mk (renderSegs segs)) = FindAllNames (String.mk (renderSegs segs)) ∧
      ∀ n ∈ ExpandLookups (String.mk (renderSegs segs)), (LookupEnv env n).isSome = true := by
  have h1 : ExpandLookups (String.mk (renderSegs segs)) =
      FindAllNames (String.mk (renderSegs segs)) := by
    rw [ExpandLookups_segs segs hok, FindAllNames_segs segs hok]
  refine ⟨h1, fun n hn => hdef n ?_⟩
  rw [← h1]
  exact hn

/-- C11 (amended), at the value `$FOO/bin${BAR}` with `FOO` and `BAR` defined:
the names looked up are `FOO` and `BAR`, both defined. -/
theorem expandEnv_lookups_defined_witness :
    ExpandLookups (String.mk (renderSegs [.var "FOO".data, .lit "/bin".data, .braced "BAR".data]))
      = FindAllNames
        (String.mk (renderSegs [.var "FOO".data, .lit "/bin".data, .braced "BAR".data])) ∧
    ∀ n ∈ ExpandLookups
        (String.mk (renderSegs [.var "FOO".data, .lit "/bin".data, .braced "BAR".data])),
      (LookupEnv [("FOO", "/opt"), ("BAR", "yum")] n).isSome = true :=
  expandEnv_lookups_defined [("FOO", "/opt"), ("BAR", "yum")]
    [.var "FOO".data, .lit "/bin".data, .braced "BAR".data] (by decide) (by decide)

/-! ## C12: a state file that is not current -/

theorem MixState_Load_stale_eq (x : StateExternals) (state s1 : MixState) (filename : String)
    (fs : FS) (f : File)
    (hs1 : s1 = if filename ≠ "" then { state.LoadDefaults fs with filename := filename }
      else state.LoadDefaults fs)
    (hopen : fs.Open s1.filename = .ok f)
    (herr : (x.ParseVersion fs s1.filename s1.version CurrentStateVersion).err = none)
    (hok : (x.ParseVersion fs s1.filename s1.version CurrentStateVersion).ok = false) :
    MixState.Load x state filename fs =
      ⟨{ s1 with version := CurrentStateVersion },
        (MixState.Save x.encode { s1 with version := CurrentStateVersion } fs).1,
        ["Converting state to version " ++ CurrentStateVersion ++ "\n"],
        (MixState.Save x.encode { s1 with version := CurrentStateVersion } fs).2⟩ := by
  unfold MixState.Load
  simp only [← hs1, hopen, herr, hok, Bool.false_eq_true, if_false]

theorem loadTarget_fields (state s1 : MixState) (filename : String) (fs : FS)
    (hs1 : s1 = if filename ≠ "" then { state.LoadDefaults fs with filename := filename }
      else state.LoadDefaults fs) :
    s1.Mix.Offline = "false" ∧ s1.Mix.Format = (state.loadDefaultFormat fs).Mix.Format ∧
      s1.formatSource = (state.loadDefaultFormat fs).formatSource := by
  subst hs1
  by_cases h : filename = ""
  · simp [h, MixState.LoadDefaults]
  · simp [h, MixState.LoadDefaults]

/-- C12: when the state file can be opened and `ParseVersion` reports it not
current, without error, `MixState.Load` does not decode the file (its result is
the same whatever the decoder would do). It saves, and leaves in memory, the
defaulted state: version `CurrentStateVersion`, Mix.Offline `false` and
Mix.Format the default just resolved by `loadDefaultFormat`; its error is the
one of `Save`, and when there is none the file holds the header of
`CurrentStateVersion` and the encoding of that state. -/
theorem MixState_Load_stale_defaults (x : StateExternals) (state s1 : MixState)
    (filename : String) (fs : FS) (f : File)
    (hs1 : s1 = if filename ≠ "" then { state.LoadDefaults fs with filename := filename }
      else state.LoadDefaults fs)
    (hopen : fs.Open s1.filename = .ok f)
    (herr : (x.ParseVersion fs s1.filename s1.version CurrentStateVersion).err = none)
    (hok : (x.ParseVersion fs s1.filename s1.version CurrentStateVersion).ok = false) :
    (MixState.Load x state filename fs).state.version = CurrentStateVersion ∧
    (MixState.Load x state filename fs).state.Mix.Offline = "false" ∧
    (MixState.Load x state filename fs).state.Mix.Format =
      (state.loadDefaultFormat fs).Mix.Format ∧
    (MixState.Load x state filename fs).fs =
      (MixState.Save x.encode (MixState.Load x state filename fs).state fs).1 ∧
    (MixState.Load x state filename fs).err =
      (MixState.Save x.encode (MixState.Load x state filename fs).state fs).2 ∧
    ((MixState.Load x state filename fs).err = none →
      ∃ body g, x.encode (MixState.Load x state filename fs).state = .ok body ∧
        (MixState.Load x state filename fs).fs.lookup s1.filename = some g ∧
        g.content = "#VERSION " ++ CurrentStateVersion ++ "\n\n" ++ body) ∧
    (∀ decode, MixState.Load { x with decode := decode } state filename fs =
      MixState.Load x state filename fs) := by
  have heq := MixState_Load_stale_eq x state s1 filename fs f hs1 hopen herr hok
  obtain ⟨h1, h2, -⟩ := loadTarget_fields state s1 filename fs hs1
  refine ⟨by rw [heq], by rw [heq]; exact h1, by rw [heq]; exact h2, by rw [heq],
    by rw [heq], ?_, ?_⟩
  · rw [heq]
    intro hnone
    simp only [MixState.Save] at hnone ⊢
    cases he : x.encode { s1 with version := CurrentStateVersion } with
    | error e => simp [he] at hnone
    | ok body =>
      simp only [he] at hnone ⊢
      cases hw : fs.WriteFile s1.filename (saveBuffer CurrentStateVersion body) with
      | mk fs1 err =>
        cases err with
        | some e => simp [hw] at hnone
        | none =>
          obtain ⟨g, hg1, hg2⟩ := WriteFile_ok _ _ _ _ hw
          exact ⟨body, g, rfl, hg1, hg2⟩
  · intro decode
    rw [heq]
    exact MixState_Load_stale_eq { x with decode := decode } state s1 filename fs f hs1 hopen
      herr hok

/-- C12, at a state file of version 1.0 holding format 25 and offline mode, with
no builder.conf and a system default file holding `27`: the state saved and
kept has version 1.1, format `27` and offline `false`. -/
theorem MixState_Load_stale_defaults_witness :
    (MixState.Load
      ⟨fun _ _ _ _ => ⟨"1.0", false, none⟩,
        fun st => .ok ("[Mix]\n  FORMAT = \"" ++ st.Mix.Format ++ "\"\n  OFFLINE = \"" ++
          st.Mix.Offline ++ "\"\n"),
        fun _ _ st => ({ st with Mix := ⟨"25", "true"⟩ }, none)⟩
      MixState.zero ""
      ⟨[("mixer.state",
          ⟨"#VERSION 1.0\n\n[Mix]\n  FORMAT = \"25\"\n  OFFLINE = \"true\"\n", true, true⟩),
        (DefaultFormatPath, ⟨"27", true, false⟩)], []⟩).state =
      ⟨⟨"27", "false"⟩, "mixer.state", "1.1", DefaultFormatPath⟩ ∧
    (MixState.Load
      ⟨fun _ _ _ _ => ⟨"1.0", false, none⟩,
        fun st => .ok ("[Mix]\n  FORMAT = \"" ++ st.Mix.Format ++ "\"\n  OFFLINE = \"" ++
          st.Mix.Offline ++ "\"\n"),
        fun _ _ st => ({ st with Mix := ⟨"25", "true"⟩ }, none)⟩
      MixState.zero ""
      ⟨[("mixer.state",
          ⟨"#VERSION 1.0\n\n[Mix]\n  FORMAT = \"25\"\n  OFFLINE = \"true\"\n", true, true⟩),
        (DefaultFormatPath, ⟨"27", true, false⟩)], []⟩).state.version = CurrentStateVersion :=
  ⟨by decide,
    (MixState_Load_stale_defaults
      ⟨fun _ _ _ _ => ⟨"1.0", false, none⟩,
        fun st => .ok ("[Mix]\n  FORMAT = \"" ++ st.Mix.Format ++ "\"\n  OFFLINE = \"" ++
          st.Mix.Offline ++ "\"\n"),
        fun _ _ st => ({ st with Mix := ⟨"25", "true"⟩ }, none)⟩
      MixState.zero
      ⟨⟨"27", "false"⟩, "mixer.state", "1.1", DefaultFormatPath⟩
      ""
      ⟨[("mixer.state",
          ⟨"#VERSION 1.0\n\n[Mix]\n  FORMAT = \"25\"\n  OFFLINE = \"true\"\n", true, true⟩),
        (DefaultFormatPath, ⟨"27", true, false⟩)], []⟩
      ⟨"#VERSION 1.0\n\n[Mix]\n  FORMAT = \"25\"\n  OFFLINE = \"true\"\n", true, true⟩
      (by decide) (by rfl) (by rfl) (by rfl)).1⟩

/-! ## C13: the file `Convert` works on -/

/-- C13: when the working directory `pwd` can be determined, `Convert(filename)`
runs `ParseVersion`, and `convert` when the file is not current, on the
document of the defaults for `pwd`, whose `GetFilename()` is
`filepath.Join(pwd, "builder.conf")`: the name `InitConfigPath(filename)` had
set is overwritten by `LoadDefaults`, and the outcome of `Convert` is the same
for every `filename`, empty or not. -/
theorem Convert_uses_cwd_builder_conf (x : Externals) (pwd : String) (config : MixConfig)
    (filename : String) (fs : FS) :
    (MixConfig.LoadDefaults x.CurrentConfigVersion
        (config.InitConfigPath (.ok pwd) filename).1 (.ok pwd)).1.GetFilename =
      filepathJoin [pwd, "builder.conf"] ∧
    MixConfig.Convert x (.ok pwd) config filename fs =
      (match (x.ParseVersion fs (filepathJoin [pwd, "builder.conf"]) x.CurrentConfigVersion
          x.CurrentConfigVersion).err with
        | some e =>
          ({ MixConfig.LoadDefaultsForPath x.CurrentConfigVersion config pwd with
              version := (x.ParseVersion fs (filepathJoin [pwd, "builder.conf"])
                x.CurrentConfigVersion x.CurrentConfigVersion).version }, fs, some e)
        | none =>
          if (x.ParseVersion fs (filepathJoin [pwd, "builder.conf"]) x.CurrentConfigVersion
              x.CurrentConfigVersion).ok = true then
            ({ MixConfig.LoadDefaultsForPath x.CurrentConfigVersion config pwd with
              version := (x.ParseVersion fs (filepathJoin [pwd, "builder.conf"])
                x.CurrentConfigVersion x.CurrentConfigVersion).version }, fs, none)
          else
            x.convert
              { MixConfig.LoadDefaultsForPath x.CurrentConfigVersion config pwd with
                version := (x.ParseVersion fs (filepathJoin [pwd, "builder.conf"])
                  x.CurrentConfigVersion x.CurrentConfigVersion).version } fs) ∧
    ({ MixConfig.LoadDefaultsForPath x.CurrentConfigVersion config pwd with
        version := (x.ParseVersion fs (filepathJoin [pwd, "builder.conf"])
          x.CurrentConfigVersion x.CurrentConfigVersion).version } : MixConfig).GetFilename =
      filepathJoin [pwd, "builder.conf"] ∧
    MixConfig.Convert x (.ok pwd) config filename fs = MixConfig.Convert x (.ok pwd) config "" fs := by
  have hinit : ∀ fn, (config.InitConfigPath (.ok pwd) fn).2 = none := by
    intro fn
    unfold MixConfig.InitConfigPath
    split_ifs <;> rfl
  have hconv : ∀ fn, MixConfig.Convert x (.ok pwd) config fn fs =
      (match (x.ParseVersion fs (filepathJoin [pwd, "builder.conf"]) x.CurrentConfigVersion
          x.CurrentConfigVersion).err with
        | some e =>
          ({ MixConfig.LoadDefaultsForPath x.CurrentConfigVersion config pwd with
              version := (x.ParseVersion fs (filepathJoin [pwd, "builder.conf"])
                x.CurrentConfigVersion x.CurrentConfigVersion).version }, fs, some e)
        | none =>
          if (x.ParseVersion fs (filepathJoin [pwd, "builder.conf"]) x.CurrentConfigVersion
              x.CurrentConfigVersion).ok = true then
            ({ MixConfig.LoadDefaultsForPath x.CurrentConfigVersion config pwd with
              version := (x.ParseVersion fs (filepathJoin [pwd, "builder.conf"])
                x.CurrentConfigVersion x.CurrentConfigVersion).version }, fs, none)
          else
            x.convert
              { MixConfig.LoadDefaultsForPath x.CurrentConfigVersion config pwd with
                version := (x.ParseVersion fs (filepathJoin [pwd, "builder.conf"])
                  x.CurrentConfigVersion x.CurrentConfigVersion).version } fs) := by
    intro fn
    unfold MixConfig.Convert
    cases hi : config.InitConfigPath (.ok pwd) fn with
    | mk c0 e0 =>
      have he0 : e0 = none := by
        have := hinit fn
        rw [hi] at this
        exact this
      subst he0
      rfl
  refine ⟨rfl, hconv filename, rfl, ?_⟩
  rw [hconv filename, hconv ""]

/-- With a `ParseVersion` that reports the file name it was given as version,
`Convert` called in `/mix` for `/other/legacy.conf` checks `/mix/builder.conf`. -/
theorem Convert_checks_cwd_file_example :
    (MixConfig.Convert
      ⟨"1.0", fun _ name _ _ => ⟨name, true, none⟩, fun c fs => (c, fs, none),
        fun _ _ c => (c, none)⟩
      (.ok "/mix") MixConfig.zero "/other/legacy.conf" ⟨[], []⟩).1.version =
      "/mix/builder.conf" := by
  decide

end config
